import Mathlib

/-!
Verification of the sensor-cache and interpolation core of katdal
(`katdal/sensordata.py`) via a shallow embedding.

Modelling conventions:
* Python floats are modelled as exact rationals (`ℚ`).  Where a float can be
  NaN (sensor values fed to the numeric interpolation path, in particular the
  dummy value substituted for an empty float sensor) the value is modelled as
  `Option ℚ`, with `none` playing the role of NaN; arithmetic propagates
  `none` exactly as IEEE arithmetic propagates NaN.
* NumPy record arrays with fields `timestamp` / `value` / optional `status`
  are modelled as a structure of parallel lists (`SensorData` below).  The
  `name` attribute of the source classes is only used in log messages and is
  dropped; sensor names live as the keys of the cache map.
* `np.argsort(x, kind='mergesort')` followed by fancy-indexing `x[sort_ind]`,
  `y[sort_ind]` is modelled by stably sorting the list of (timestamp, value)
  pairs by timestamp.  A stable sort is extensionally unique, so the
  insertion sort used here computes exactly the mergesort result.
* Python dicts that the code iterates over (the property table, the virtual
  template table, the alias table, the cache itself) are modelled as
  association lists in iteration order; `d[k] = v` is update-in-place-or-
  append, preserving position of an existing key.
* The external collaborators `sensor_to_categorical` (katdal/categorical.py,
  not part of the sources) and the virtual-sensor constructor functions are
  modelled as free constructors / opaque function parameters; see `CatRun`.
* The optional `scikits.fitting` higher-order backend is absent in the
  modelled configuration, so the numeric path always uses
  `_safe_linear_interp` (the spec calls the backend an external, optional
  collaborator that is not part of the tested surface).
-/

/-- NumPy dtype kinds distinguished by the source (`np.issubdtype` chains in
`dummy_sensor_data` and the `categorical` default in `SensorCache.get`). -/
inductive DType where
  | float
  | int
  | str
  | bool
  | obj
deriving DecidableEq, Repr

/-- A single sensor value.  `nan` is the float NaN; `null` models Python
`None` (the dummy value for opaque/object dtype). -/
inductive SValue where
  | nan
  | num (q : ℚ)
  | int (z : ℤ)
  | str (s : String)
  | bool (b : Bool)
  | null
deriving DecidableEq, Repr

instance : Inhabited SValue := ⟨SValue.null⟩

/-- The dtype of a concrete value (`np.array(value).dtype`). -/
def SValue.dtypeOf : SValue → DType
  | .nan => .float
  | .num _ => .float
  | .int _ => .int
  | .str _ => .str
  | .bool _ => .bool
  | .null => .obj

/-- Coercion of a sensor value to a float for the numeric interpolation path;
`none` is NaN.  Non-numeric values coerce to NaN. -/
def SValue.toF : SValue → Option ℚ
  | .nan => none
  | .num q => some q
  | .int z => some (z : ℚ)
  | .bool b => some (if b then 1 else 0)
  | .str _ => none
  | .null => none

/-- Raw (uninterpolated) sensor data: the three-parallel-field contract of the
source `SensorData` wrappers (fields `timestamp`, `value`, optional
`status`), plus the exposed value dtype. -/
structure SensorData (α : Type) where
  dtype : DType
  timestamp : List ℚ
  value : List α
  status : Option (List String)
deriving DecidableEq, Repr

/-- `bool(sensor_data)`: true iff the sensor has at least one data point. -/
def SensorData.nonEmpty (s : SensorData α) : Bool :=
  decide (s.timestamp.length ≠ 0)

/- ------------------------------------------------------------------ -/
/- Cleaning pass: remove_duplicates_and_invalid_values                 -/
/- ------------------------------------------------------------------ -/

/-- Insert a (timestamp, value) row into a list sorted by timestamp, before
the first row with a greater-or-equal timestamp. -/
def insertRow (r : ℚ × α) : List (ℚ × α) → List (ℚ × α)
  | [] => [r]
  | b :: l => if r.1 ≤ b.1 then r :: b :: l else b :: insertRow r l

/-- Stable sort of (timestamp, value) rows by timestamp.  Models
`sort_ind = np.argsort(x, kind='mergesort'); x, y = x[sort_ind], y[sort_ind]`:
rows with equal timestamps keep their original relative order. -/
def sortRows : List (ℚ × α) → List (ℚ × α)
  | [] => []
  | r :: l => insertRow r (sortRows l)

/-- Indices that are the last of a run of identical timestamps in the sorted
timestamp list: models
`last_of_run = np.asarray(list(np.diff(x) != 0) + [True])` followed by
`unique_ind = last_of_run.nonzero()[0]`. -/
def lastOfRunIdx (xs : List ℚ) : List ℕ :=
  (List.range xs.length).filter
    (fun i => decide (i + 1 = xs.length) || ! decide (xs.getD i 0 = xs.getD (i + 1) 0))

/-- Status test after `z[unique_ind].astype('|S7')`: the status string is
truncated to 7 bytes and compared with 'nominal' / 'warn' / 'error'. -/
def goodStatus (st : String) : Bool :=
  decide (st.data.take 7 = "nominal".data) ||
    decide (st.data.take 7 = "warn".data) || decide (st.data.take 7 = "error".data)

/-- The sorted positions kept by the cleaning pass: the last of each run of
duplicate timestamps (`unique_ind`), further restricted — when a status
field exists — to positions whose status is valid.  The status consulted for
position `i` is `z.getD i` in the *unsorted* status list: the source sorts
`x` and `y` by the stable argsort of `x` but never applies `sort_ind` to the
status array `z`, so `status = z[unique_ind]` indexes the original-order
statuses with positions that refer to the sorted arrays.  The model
reproduces this faithfully. -/
def cleanKeptInd (s : SensorData α) : List ℕ :=
  let xs := (sortRows (s.timestamp.zip s.value)).map Prod.fst
  match s.status with
  | none => lastOfRunIdx xs
  | some z => (lastOfRunIdx xs).filter (fun i => goodStatus (z.getD i ""))

/-- Model of `remove_duplicates_and_invalid_values`: stable-sort the
(timestamp, value) rows by timestamp, keep the positions selected by
`cleanKeptInd`, and drop the status field entirely.

The source is partial: for an *empty* input series (N = 0) the index
gymnastics produce `last_of_run = [True]`, hence `unique_ind = [0]` and
`replacement = [0]`, and `y[replacement]` raises IndexError on the empty
value array.  That raise is modelled as `none`; every non-empty series
yields `some` of the cleaned series. -/
def remove_duplicates_and_invalid_values [Inhabited α] (s : SensorData α) :
    Option (SensorData α) :=
  let rows := sortRows (s.timestamp.zip s.value)
  if s.timestamp.length = 0 then none
  else some
    { dtype := s.dtype
      timestamp := (cleanKeptInd s).map (fun i => (rows.map Prod.fst).getD i 0)
      value := (cleanKeptInd s).map (fun i => (rows.getD i (0, default)).2)
      status := none }

/- ------------------------------------------------------------------ -/
/- Interpolation engine: _safe_linear_interp                           -/
/- ------------------------------------------------------------------ -/

/-- `xi.searchsorted(x)` (side='left'): the index of the first element of the
ascending list `xi` that is `≥ q`, i.e. the number of elements `< q`. -/
def searchsorted (xi : List ℚ) (q : ℚ) : ℕ :=
  xi.countP (fun v => decide (v < q))

/-- One query point of the N > 1 branch of `_safe_linear_interp`: find the
segment end via `searchsorted`, clamp an out-of-range index to the first or
last segment, compute the fractional weight, clip it to [0, 1] and blend the
two endpoint y-values.  A NaN (`none`) endpoint makes the result NaN, as in
float arithmetic. -/
def interpPoint (xi : List ℚ) (yi : List (Option ℚ)) (q : ℚ) : Option ℚ :=
  let e0 := searchsorted xi q
  let e1 := if e0 = 0 then e0 + 1 else e0
  let e2 := if e1 = xi.length then e1 - 1 else e1
  let s := e2 - 1
  let w0 := (q - xi.getD s 0) / (xi.getD e2 0 - xi.getD s 0)
  let w := min (max w0 0) 1
  match yi.getD s none, yi.getD e2 none with
  | some ys, some ye => some ((1 - w) * ys + w * ye)
  | _, _ => none

/-- Model of `_safe_linear_interp(xi, yi, x)` (source name with a leading
underscore).  For a single fixed point it returns `yi[0] * np.ones_like(x)`;
otherwise it interpolates each query point with `interpPoint`. -/
def safe_linear_interp (xi : List ℚ) (yi : List (Option ℚ)) (x : List ℚ) :
    List (Option ℚ) :=
  if xi.length = 1 then x.map (fun _ => (yi.getD 0 none).map (· * 1))
  else x.map (fun q => interpPoint xi yi q)

/- ------------------------------------------------------------------ -/
/- dummy_sensor_data                                                   -/
/- ------------------------------------------------------------------ -/

/-- The type-appropriate filler value chosen by `dummy_sensor_data` when no
explicit value is given: NaN / -1 / '' / False / None by dtype kind. -/
def dtypeDefault : DType → SValue
  | .float => .nan
  | .int => .int (-1)
  | .str => .str ""
  | .bool => .bool false
  | .obj => .null

/-- Model of `dummy_sensor_data(name, value, dtype)` with the default
timestamp 0.0: a single-point series holding the filler value.  When an
explicit value is given the dtype is rediscovered from it
(`dtype = np.array(value).dtype`). -/
def dummy_sensor_data (value : Option SValue) (dtype : DType) : SensorData SValue :=
  match value with
  | some v => { dtype := v.dtypeOf, timestamp := [0], value := [v], status := none }
  | none => { dtype := dtype, timestamp := [0], value := [dtypeDefault dtype], status := none }

/- ------------------------------------------------------------------ -/
/- Association-list dictionaries                                       -/
/- ------------------------------------------------------------------ -/

/-- Dictionary lookup in an association list (first matching key wins; keys
are unique in lists that model Python dicts). -/
def alookup (d : List (String × β)) (k : String) : Option β :=
  match d with
  | [] => none
  | (k₁, v) :: rest => if k₁ = k then some v else alookup rest k

/-- Dictionary store `d[k] = v`: replace the value at an existing key in
place (keeping its position, as a Python dict does) or append a new binding. -/
def aupdate (d : List (String × β)) (k : String) (v : β) : List (String × β) :=
  match d with
  | [] => [(k, v)]
  | (k₁, v₁) :: rest =>
    if k₁ = k then (k, v) :: rest else (k₁, v₁) :: aupdate rest k v

/-- A property value: the recognized property kinds (`categorical` is a bool,
`interp_degree` an int, `initial_value` a sensor value) plus strings for
opaque categorical tuning keys. -/
inductive PropVal where
  | pBool (b : Bool)
  | pInt (z : ℤ)
  | pVal (v : SValue)
  | pStr (s : String)
deriving DecidableEq, Repr

/-- Python truthiness of a property value (used for `if categ:`). -/
def PropVal.truthy : PropVal → Bool
  | .pBool b => b
  | .pInt z => decide (z ≠ 0)
  | .pStr s => decide (s ≠ "")
  | .pVal .nan => true
  | .pVal (.num q) => decide (q ≠ 0)
  | .pVal (.int z) => decide (z ≠ 0)
  | .pVal (.str s) => decide (s ≠ "")
  | .pVal (.bool b) => b
  | .pVal .null => false

/-- The sensor value denoted by a property value (for `initial_value`). -/
def PropVal.toSValue : PropVal → SValue
  | .pBool b => .bool b
  | .pInt z => .int z
  | .pVal v => v
  | .pStr s => .str s

/-- A per-sensor property dictionary. -/
abbrev PropDict : Type := List (String × PropVal)

/-- `dict.update`: fold the bindings of `e` into `d` in order. -/
def dictUpdate (d e : PropDict) : PropDict :=
  e.foldl (fun acc p => aupdate acc p.1 p.2) d

/-- Does the property-table key `key` denote a class of sensors containing
`name`?  Models `key[0] == '*' and name.endswith(key[1:])`. -/
def classMatch (key name : String) : Bool :=
  decide (key.data.head? = some '*') && List.isSuffixOf (key.data.drop 1) name.data

/-- The property-resolution step of `SensorCache.get`:

    self.props[name] = props = self.props.get(name, {})
    for key, val in self.props.iteritems():
        if key[0] == '*' and name.endswith(key[1:]):
            props.update(val)
    props.update(kwargs)

Returns the merged dict together with the table as updated by the first
line (the merged dict itself is stored back into the table by the caller,
mirroring the in-place mutation of the shared dict object).  Note that the
exact-name entry is the *base* that the class-pattern entries then
overwrite — class values take precedence over exact-name values here.
(The model reads each table entry as stored; for a sensor name that itself
starts with '*' the source would merge the partially-updated dict into
itself, an aliasing effect the theorems exclude by hypothesis.) -/
def mergeProps (table : List (String × PropDict)) (name : String)
    (kwargs : PropDict) : PropDict × List (String × PropDict) :=
  let base := (alookup table name).getD []
  let table₁ := aupdate table name base
  let afterClass := table₁.foldl
    (fun acc p => if classMatch p.1 name then dictUpdate acc p.2 else acc) base
  (dictUpdate afterClass kwargs, table₁)

/- ------------------------------------------------------------------ -/
/- Virtual sensor templates                                            -/
/- ------------------------------------------------------------------ -/

/-- A segment of a virtual-sensor name pattern: a literal character or an
`{identifier}` placeholder, which the source expands to the regular
expression `(?P<identifier>[^//]+)` (one or more non-'/' characters). -/
inductive Seg where
  | lit (c : Char)
  | var (v : String)
deriving DecidableEq, Repr

/-- First character of a placeholder identifier: `[a-zA-Z_]`. -/
def isIdentStart (c : Char) : Bool :=
  (('a' ≤ c && c ≤ 'z') || ('A' ≤ c && c ≤ 'Z')) || c = '_'

/-- Subsequent placeholder identifier characters: `\w` = `[a-zA-Z0-9_]`. -/
def isIdentChar (c : Char) : Bool :=
  isIdentStart c || ('0' ≤ c && c ≤ '9')

/-- Parse a pattern into segments, replacing each maximal `{identifier}`
occurrence (per the source regex `({[a-zA-Z_]\w*})`) by a placeholder and
keeping every other character literal.  `fuel` bounds the recursion (the
caller passes the pattern length, which always suffices as each step
consumes at least one character). -/
def parseSegsF : ℕ → List Char → List Seg
  | 0, _ => []
  | _ + 1, [] => []
  | fuel + 1, c :: rest =>
    if c = '{' then
      let ids := rest.takeWhile isIdentChar
      if decide (ids ≠ []) && isIdentStart (ids.headD 'a')
          && decide ((rest.drop ids.length).take 1 = ['}']) then
        Seg.var ids.asString :: parseSegsF fuel (rest.drop (ids.length + 1))
      else
        Seg.lit c :: parseSegsF fuel rest
    else
      Seg.lit c :: parseSegsF fuel rest

/-- Parse a virtual-sensor pattern into segments. -/
def parseSegs (pat : String) : List Seg :=
  parseSegsF (pat.data.length + 1) pat.data

/-- Captured variable bindings of a successful match. -/
abbrev Bindings : Type := List (String × String)

/-- Greedy placeholder matching: try capture lengths from `k` down to 1,
keep the first one that lets the remaining segments (matched by `f`) match,
and bind the captured characters to `v`. -/
def tryLens (f : List Char → Option Bindings) (v : String) (cs : List Char) :
    ℕ → Option Bindings
  | 0 => none
  | k + 1 =>
    match f (cs.drop (k + 1)) with
    | some bs => some ((v, (cs.take (k + 1)).asString) :: bs)
    | none => tryLens f v cs k

/-- Match pattern segments against (a prefix of) `cs`, like Python
`re.match`: literals must coincide, a placeholder captures a maximal
(greedy, with backtracking) nonempty run of non-'/' characters, and any
unmatched tail of `cs` is ignored.  `fuel` bounds the recursion; one unit is
spent per segment, so `segs.length + 1` always suffices. -/
def matchSegsF : ℕ → List Seg → List Char → Option Bindings
  | 0, _, _ => none
  | _ + 1, [], _ => some []
  | _ + 1, Seg.lit _ :: _, [] => none
  | fuel + 1, Seg.lit c :: segs, c₁ :: cs =>
    if c = c₁ then matchSegsF fuel segs cs else none
  | fuel + 1, Seg.var v :: segs, cs =>
    tryLens (matchSegsF fuel segs) v cs
      ((cs.takeWhile (fun c => ! decide (c = '/'))).length)

/-- Match a parsed pattern against a name, Python `re.match` style. -/
def matchSegs (segs : List Seg) (cs : List Char) : Option Bindings :=
  matchSegsF (segs.length + 1) segs cs

/-- A virtual-sensor constructor: given the resolved sensor name and the
captured identifier bindings, produce a raw sensor series.  (The source
passes the cache itself as a first argument; the constructors are external
collaborators and the model treats them as pure functions of the name and
bindings.) -/
abbrev VirtualCtor : Type := String → Bindings → SensorData SValue

/-- Scan the virtual template table in order; return the constructor and
captured bindings of the first pattern that matches `name`. -/
def findVirtual (virtual : List (String × VirtualCtor)) (name : String) :
    Option (VirtualCtor × Bindings) :=
  match virtual with
  | [] => none
  | (pat, ctor) :: rest =>
    match matchSegs (parseSegs pat) name.data with
    | some bs => some (ctor, bs)
    | none => findVirtual rest name

/- ------------------------------------------------------------------ -/
/- String helpers for aliases and error messages                       -/
/- ------------------------------------------------------------------ -/

/-- `suffix.isSuffixOf name` on character lists: models `name.endswith(s)`. -/
def strEndsWith (name suf : String) : Bool :=
  List.isSuffixOf suf.data name.data

/-- Replace every non-overlapping occurrence of `pat` in `s` (left to right)
by `rep`, as Python `str.replace` does.  `fuel` bounds the recursion; one
character of `s` is consumed per step, so `s.length` always suffices.  An
empty pattern leaves the string unchanged (Python would intersperse the
replacement; alias suffixes are never empty). -/
def replaceAllF (pat rep : List Char) : ℕ → List Char → List Char
  | _, [] => []
  | 0, s => s
  | fuel + 1, c :: s =>
    if decide (pat ≠ []) && List.isPrefixOf pat (c :: s) then
      rep ++ replaceAllF pat rep fuel ((c :: s).drop pat.length)
    else
      c :: replaceAllF pat rep fuel s

/-- Models Python `name.replace(original, alias)`. -/
def strReplace (s pat rep : String) : String :=
  (replaceAllF pat.data rep.data s.data.length s.data).asString

/-- `'x'` quoted as in a Python sequence repr. -/
def quoteName (n : String) : String :=
  "'" ++ n ++ "'"

/-- Comma-separated quoted names, as inside a Python list repr. -/
def commaSep : List String → String
  | [] => ""
  | [n] => quoteName n
  | n :: rest => quoteName n ++ ", " ++ commaSep rest

/-- Python repr of a list of strings, e.g. `['foo', 'bar']`. -/
def pyListRepr (ns : List String) : String :=
  "[" ++ commaSep ns ++ "]"

/- ------------------------------------------------------------------ -/
/- The sensor cache                                                    -/
/- ------------------------------------------------------------------ -/

/-- Modelled from the spec: the result of the external categorical-run
builder `sensor_to_categorical` (katdal/categorical.py, which is not among
the sources).  Per spec section 4.2 the builder is called with the cleaned
timestamps and values, the target timeline, the dump period and the resolved
property dict, and its event-boundary semantics are owned by that component;
the model therefore represents the returned run object as a free constructor
recording exactly those arguments. -/
structure CatRun where
  timestamps : List ℚ
  values : List SValue
  timeline : List ℚ
  dump_period : ℚ
  props : PropDict
deriving DecidableEq

/-- A cache entry: an unresolved raw series, or the resolved value stored
after extraction (a numeric array or a categorical run). -/
inductive Entry where
  | raw (s : SensorData SValue)
  | arr (a : List (Option ℚ))
  | categ (r : CatRun)
deriving DecidableEq

/-- Is this entry still a raw `SensorData` wrapper?
(`isinstance(sensor_data, SensorData)`). -/
def Entry.isRaw : Entry → Bool
  | .raw _ => true
  | _ => false

/-- A value returned by `SensorCache.get`: a raw series (extraction
disabled), a resolved value, or a resolved value with the time selection
applied (for a categorical run the selection is applied by the external run
object; the model records it symbolically). -/
inductive Value where
  | raw (s : SensorData SValue)
  | arr (a : List (Option ℚ))
  | categ (r : CatRun)
  | categSel (r : CatRun) (keep : List ℕ)

/-- The value denoted by a cache entry. -/
def Entry.toValue : Entry → Value
  | .raw s => .raw s
  | .arr a => .arr a
  | .categ r => .categ r

/-- The sensor cache state: the name → entry map, the target timeline, the
dump period, the default time selection (modelled as a list of selected
timeline indices), the property table and the virtual template table. -/
structure SensorCache where
  entries : List (String × Entry)
  timestamps : List ℚ
  dump_period : ℚ
  keep : List ℕ
  props : List (String × PropDict)
  virtual : List (String × VirtualCtor)

/-- Alias expansion for one (alias, original) pair: for every entry of the
snapshot `snap` whose name ends with `original`, store its data under the
name with `original` replaced by `alias`
(`self[name.replace(original, alias)] = data`). -/
def applyAlias (acc : List (String × Entry)) (ali original : String) :
    List (String × Entry) → List (String × Entry)
  | [] => acc
  | (n, d) :: rest =>
    applyAlias
      (if strEndsWith n original then aupdate acc (strReplace n original ali) d else acc)
      ali original rest

/-- The alias-expansion loop of `SensorCache.__init__`: for each
(alias, original) pair in turn, iterate over a snapshot of the current
entries and add the renamed siblings (sharing the same underlying data). -/
def initEntries (entries : List (String × Entry)) :
    List (String × String) → List (String × Entry)
  | [] => entries
  | (ali, original) :: rest =>
    initEntries (applyAlias entries ali original entries) rest

/-- Errors raised by `SensorCache.get` / `get_with_fallback`. -/
inductive GetErr where
  | keyError (msg : String)
  | valueError (msg : String)

/-- Apply the default time selection to a returned value
(`sensor_data[self.keep]`): fancy-indexing for a numeric array, delegated
(and recorded symbolically) for a categorical run. -/
def selectValue (keep : List ℕ) : Value → Value
  | .arr a => .arr (keep.map (fun i => a.getD i none))
  | .categ r => .categSel r keep
  | .categSel r _ => .categSel r keep
  | .raw s => .raw s

/-- The cleaning / dummy-substitution step of `SensorCache.get`: clean the
series if non-empty, and if the result (or the original empty series) has no
usable rows, substitute a single-point dummy series built from the
`initial_value` property (or the dtype default) and the series dtype.
Cleaning is only invoked on a non-empty series (`if sensor_data:` in the
source), where it always succeeds, so the `getD` default is unreachable. -/
def cleanOrDummy (props : PropDict) (s : SensorData SValue) : SensorData SValue :=
  let sd₀ := if s.nonEmpty then (remove_duplicates_and_invalid_values s).getD s else s
  if sd₀.nonEmpty then sd₀
  else dummy_sensor_data ((alookup props "initial_value").map PropVal.toSValue) sd₀.dtype

/-- The dispatch step of `SensorCache.get`: read / default the `categorical`
property (stored back as read, like the in-place `props['categorical'] =
categ`), and either build the categorical run (recording its arguments) or
linearly interpolate onto the timeline (storing back `interp_degree` as
well).  Returns the resolved value and the final property dict. -/
def dispatchValue (props : PropDict) (timeline : List ℚ) (dump : ℚ)
    (sd : SensorData SValue) : Value × PropDict :=
  let categPV := (alookup props "categorical").getD
    (.pBool (decide (sd.dtype ≠ DType.float)))
  let props₂ := aupdate props "categorical" categPV
  if categPV.truthy then
    (Value.categ ⟨sd.timestamp, sd.value, timeline, dump, props₂⟩, props₂)
  else
    let degPV := (alookup props₂ "interp_degree").getD (.pInt 1)
    let props₃ := aupdate props₂ "interp_degree" degPV
    (Value.arr (safe_linear_interp sd.timestamp (sd.value.map SValue.toF) timeline),
      props₃)

/-- Resolve a raw series against merged properties and the cache timeline:
clean / dummy-substitute, then dispatch. -/
def resolveSeries (props : PropDict) (timeline : List ℚ) (dump : ℚ)
    (s : SensorData SValue) : Value × PropDict :=
  dispatchValue props timeline dump (cleanOrDummy props s)

/-- The cache entry stored for a resolved value (`self[name] = sensor_data`). -/
def Value.toEntry : Value → Entry
  | .raw s => .raw s
  | .arr a => .arr a
  | .categ r => .categ r
  | .categSel r _ => .categ r

/-- The extraction step of `SensorCache.get` for a raw entry with
`extract=True`: resolve the properties, clean the series, substitute dummy
data if nothing usable is left, dispatch to the categorical builder or the
linear interpolator, and store the resolved value and the final property
dict back into the cache. -/
def extractRaw (c : SensorCache) (name : String) (kwargs : PropDict)
    (s : SensorData SValue) : Value × SensorCache :=
  let m := mergeProps c.props name kwargs
  let r := resolveSeries m.1 c.timestamps c.dump_period s
  (r.1, { c with entries := aupdate c.entries name r.1.toEntry
                 props := aupdate m.2 name r.2 })

/-- Model of `SensorCache.get(name, select, extract, **kwargs)`.

Steps, as in the source: reject `select and not extract`; look the name up
in the concrete map; otherwise scan the virtual templates in order and call
the first matching constructor; otherwise raise KeyError.  If the found
data is raw and `extract` is set, run `extractRaw` (which stores the
resolved value).  Finally apply the time selection iff `select` is set. -/
def SensorCache.get (c : SensorCache) (name : String) (select extract : Bool)
    (kwargs : PropDict) : Except GetErr (Value × SensorCache) :=
  if select = true ∧ extract = false then
    .error (.valueError "Cannot apply selection on raw sensor data")
  else
    let found : Option Value := match alookup c.entries name with
      | some e => some e.toValue
      | none => match findVirtual c.virtual name with
        | some (ctor, bs) => some (.raw (ctor name bs))
        | none => none
    match found with
    | none =>
      .error (.keyError ("Unknown sensor '" ++ name ++
        "' (does not match actual name or virtual template)"))
    | some (.raw s) =>
      if extract then
        let r := extractRaw c name kwargs s
        .ok (if select then selectValue r.2.keep r.1 else r.1, r.2)
      else
        .ok (if select then selectValue c.keep (.raw s) else (.raw s), c)
    | some v =>
      .ok (if select then selectValue c.keep v else v, c)

/-- The inner loop of `get_with_fallback`: try each remaining candidate with
the selecting get path, skipping candidates that fail with KeyError; when
all candidates are exhausted, raise a KeyError naming the sensor class and
the full candidate list. -/
def fallbackGo (c : SensorCache) (sensor_type : String) (full : List String) :
    List String → Except GetErr (Value × SensorCache)
  | [] =>
    .error (.keyError ("Could not find any " ++ sensor_type ++ " sensor, tried " ++
      pyListRepr full))
  | n :: rest =>
    match SensorCache.get c n true true [] with
    | .ok r => .ok r
    | .error (.keyError _) => fallbackGo c sensor_type full rest
    | .error e => .error e

/-- Model of `SensorCache.get_with_fallback(sensor_type, names)`. -/
def SensorCache.get_with_fallback (c : SensorCache) (sensor_type : String)
    (names : List String) : Except GetErr (Value × SensorCache) :=
  fallbackGo c sensor_type names names

/- ------------------------------------------------------------------ -/
/- Association-list lemmas                                             -/
/- ------------------------------------------------------------------ -/

theorem alookup_aupdate (d : List (String × β)) (k k₁ : String) (v : β) :
    alookup (aupdate d k v) k₁ = if k = k₁ then some v else alookup d k₁ := by
  induction d with
  | nil => simp [aupdate, alookup]
  | cons p rest ih =>
    by_cases h : p.1 = k
    · simp only [aupdate, alookup, h, if_pos rfl]
      by_cases h₁ : k = k₁ <;> simp [alookup, h₁, h ▸ h₁]
    · simp only [aupdate, alookup, if_neg h]
      by_cases h₁ : p.1 = k₁
      · have : ¬ k = k₁ := fun he => h (he ▸ h₁)
        simp [alookup, h₁, this]
      · simp [alookup, h₁, ih]

theorem alookup_append (d₁ d₂ : List (String × β)) (k : String) :
    alookup (d₁ ++ d₂) k = Option.or (alookup d₁ k) (alookup d₂ k) := by
  induction d₁ with
  | nil => simp [alookup, Option.or]
  | cons p rest ih =>
    by_cases h : p.1 = k <;> simp [alookup, h, ih, Option.or]

theorem option_or_assoc (a b c : Option β) :
    Option.or (Option.or a b) c = Option.or a (Option.or b c) := by
  cases a <;> simp [Option.or]

theorem alookup_eq_none_of_not_mem (d : List (String × β)) (k : String)
    (h : k ∉ d.map Prod.fst) : alookup d k = none := by
  induction d with
  | nil => simp [alookup]
  | cons p rest ih =>
    simp only [List.map_cons, List.mem_cons] at h
    push_neg at h
    have h₁ : ¬ p.1 = k := fun he => h.1 he.symm
    simp [alookup, h₁, ih h.2]

theorem alookup_reverse_of_nodup (d : List (String × β)) (k : String)
    (h : (d.map Prod.fst).Nodup) : alookup d.reverse k = alookup d k := by
  induction d with
  | nil => simp
  | cons p rest ih =>
    simp only [List.map_cons, List.nodup_cons] at h
    rw [List.reverse_cons, alookup_append]
    by_cases hk : p.1 = k
    · have : alookup rest.reverse k = none := by
        rw [ih h.2]
        exact alookup_eq_none_of_not_mem rest k (hk ▸ h.1)
      simp [this, alookup, hk, Option.or]
    · simp [alookup, hk, ih h.2, Option.or]
      cases alookup rest k <;> simp [Option.or]

theorem aupdate_aupdate (d : List (String × β)) (k : String) (v₁ v₂ : β) :
    aupdate (aupdate d k v₁) k v₂ = aupdate d k v₂ := by
  induction d with
  | nil => simp [aupdate]
  | cons p rest ih =>
    by_cases h : p.1 = k
    · simp [aupdate, h]
    · simp [aupdate, h, ih]

/- ------------------------------------------------------------------ -/
/- Property-merge lemmas                                               -/
/- ------------------------------------------------------------------ -/

theorem alookup_dictUpdate (e : PropDict) :
    ∀ (d : PropDict) (k : String),
      alookup (dictUpdate d e) k = Option.or (alookup e.reverse k) (alookup d k) := by
  induction e with
  | nil => intro d k; simp [dictUpdate, alookup, Option.or]
  | cons p e ih =>
    intro d k
    have h₁ : dictUpdate d (p :: e) = dictUpdate (aupdate d p.1 p.2) e := by
      simp [dictUpdate]
    rw [h₁, ih, List.reverse_cons, alookup_append, option_or_assoc]
    by_cases h : p.1 = k <;>
      simp [alookup, alookup_aupdate, h, Option.or]

/-- The dictionaries of the property-table entries whose key is a class
pattern matching `name`, in table order. -/
def classDicts (table : List (String × PropDict)) (name : String) : List PropDict :=
  (table.filter (fun p => classMatch p.1 name)).map Prod.snd

theorem foldl_classMerge (name : String) :
    ∀ (l : List (String × PropDict)) (acc : PropDict),
      l.foldl (fun acc p => if classMatch p.1 name then dictUpdate acc p.2 else acc) acc =
        List.foldl dictUpdate acc (classDicts l name) := by
  intro l
  induction l with
  | nil => intro acc; simp [classDicts]
  | cons p rest ih =>
    intro acc
    by_cases h : classMatch p.1 name
    · simp only [List.foldl_cons, h, if_true]
      rw [ih]
      simp [classDicts, List.filter_cons, h, List.foldl_cons]
    · simp only [List.foldl_cons, h, if_false]
      rw [ih]
      simp [classDicts, List.filter_cons, h]

theorem foldl_dictUpdate_lookup :
    ∀ (ds : List PropDict) (acc : PropDict) (k : String),
      alookup (List.foldl dictUpdate acc ds) k =
        Option.or (alookup ds.flatten.reverse k) (alookup acc k) := by
  intro ds
  induction ds with
  | nil => intro acc k; simp [alookup, Option.or]
  | cons d ds ih =>
    intro acc k
    rw [List.foldl_cons, ih, List.flatten_cons, List.reverse_append,
      alookup_append, option_or_assoc, alookup_dictUpdate]

theorem classMatch_self_false (name : String) (hstar : name.data.head? ≠ some '*') :
    classMatch name name = false := by
  simp [classMatch, hstar]

theorem filter_class_aupdate (table : List (String × PropDict)) (name : String)
    (base : PropDict) (hself : classMatch name name = false) :
    (aupdate table name base).filter (fun p => classMatch p.1 name) =
      table.filter (fun p => classMatch p.1 name) := by
  induction table with
  | nil => simp [aupdate, List.filter_cons, hself]
  | cons p rest ih =>
    by_cases h : p.1 = name
    · have hp : classMatch p.1 name = false := by rw [h]; exact hself
      simp [aupdate, h, List.filter_cons, hp, hself]
    · simp [aupdate, h, List.filter_cons, ih]

/-- Characterization of the property merge performed by `SensorCache.get`:
for a sensor name that is not itself a class pattern, and keyword arguments
with unique keys (a Python dict), the merged dict resolves a key by trying,
in order: the keyword overrides, the class-pattern entries (later table
entries overriding earlier ones), and finally the exact-name entry. -/
theorem mergeProps_lookup (table : List (String × PropDict)) (name : String)
    (kwargs : PropDict) (k : String)
    (hstar : name.data.head? ≠ some '*')
    (hnodup : (kwargs.map Prod.fst).Nodup) :
    alookup (mergeProps table name kwargs).1 k =
      Option.or (alookup kwargs k)
        (Option.or (alookup (classDicts table name).flatten.reverse k)
          (alookup ((alookup table name).getD []) k)) := by
  have hself := classMatch_self_false name hstar
  show alookup (dictUpdate _ kwargs) k = _
  rw [alookup_dictUpdate, alookup_reverse_of_nodup kwargs k hnodup]
  rw [foldl_classMerge name]
  rw [foldl_dictUpdate_lookup]
  have hcd : classDicts (aupdate table name ((alookup table name).getD [])) name =
      classDicts table name := by
    show ((aupdate table name _).filter _).map Prod.snd = _
    rw [filter_class_aupdate _ _ _ hself]
    rfl
  rw [hcd]

/- ------------------------------------------------------------------ -/
/- Alias-expansion lemmas                                              -/
/- ------------------------------------------------------------------ -/

theorem applyAlias_lookup_inv (ali original r : String) (d : Entry) :
    ∀ (rest acc : List (String × Entry)),
      (∀ p ∈ rest, strEndsWith p.1 original = true →
        strReplace p.1 original ali = r → p.2 = d) →
      alookup acc r = some d →
      alookup (applyAlias acc ali original rest) r = some d := by
  intro rest
  induction rest with
  | nil => intro acc _ hacc; exact hacc
  | cons p rest ih =>
    intro acc hrest hacc
    simp only [applyAlias]
    apply ih
    · intro q hq hqe hqr
      exact hrest q (List.mem_cons_of_mem p hq) hqe hqr
    · by_cases he : strEndsWith p.1 original
      · simp only [he, if_true]
        rw [alookup_aupdate]
        by_cases hr : strReplace p.1 original ali = r
        · rw [if_pos hr, hrest p (List.mem_cons_self p rest) he hr]
        · rw [if_neg hr]
          exact hacc
      · simp only [he, if_false]
        exact hacc

theorem applyAlias_lookup (ali original n : String) (d : Entry)
    (hend : strEndsWith n original = true) :
    ∀ (rest acc : List (String × Entry)),
      (n, d) ∈ rest →
      (∀ p ∈ rest, strEndsWith p.1 original = true →
        strReplace p.1 original ali = strReplace n original ali → p.2 = d) →
      alookup (applyAlias acc ali original rest) (strReplace n original ali) = some d := by
  intro rest
  induction rest with
  | nil => intro acc hmem; exact absurd hmem (List.not_mem_nil _)
  | cons p rest ih =>
    intro acc hmem hrest
    rcases List.mem_cons.1 hmem with hhd | htl
    · simp only [applyAlias, ← hhd, hend, if_true]
      apply applyAlias_lookup_inv
      · intro q hq hqe hqr
        exact hrest q (List.mem_cons_of_mem p hq) hqe hqr
      · rw [alookup_aupdate, if_pos rfl]
    · simp only [applyAlias]
      apply ih _ htl
      intro q hq hqe hqr
      exact hrest q (List.mem_cons_of_mem p hq) hqe hqr

/- ------------------------------------------------------------------ -/
/- Claim C3                                                            -/
/- ------------------------------------------------------------------ -/

/-- C3: the claim states that the cleaning pass drops exactly the collapsed
rows whose own status is not one of nominal/warn/error.  The code instead
indexes the *unsorted* status array with positions referring to the *sorted*
arrays (`z` is never permuted by `sort_ind`), so for an unsorted input the
status consulted for a row belongs to a different row.  At the input
timestamps [2, 1], values [10, 20], statuses ['nominal', 'failure'] the code
keeps the row (1, 20) (whose true status is 'failure') and drops the row
(2, 10) (whose true status is 'nominal') — the claim requires the opposite. -/
theorem claim3_status_misalignment :
    remove_duplicates_and_invalid_values
        ⟨DType.int, [2, 1], [SValue.int 10, SValue.int 20],
          some ["nominal", "failure"]⟩ =
      some ⟨DType.int, [1], [SValue.int 20], none⟩ := by decide

/- ------------------------------------------------------------------ -/
/- Claim C5                                                            -/
/- ------------------------------------------------------------------ -/

/-- C5 counterexample: the claim states that the exact-name property entry
takes precedence over matching class-pattern entries.  With the property
table {'foo': {'k': 1}, '*oo': {'k': 2}}, resolving properties for sensor
'foo' yields k = 2 (the class value overwrites the exact-name value),
not k = 1 as the claim requires. -/
theorem claim5_precedence_counterexample :
    alookup (mergeProps [("foo", [("k", PropVal.pInt 1)]),
        ("*oo", [("k", PropVal.pInt 2)])] "foo" []).1 "k" = some (PropVal.pInt 2) ∧
      ¬ alookup (mergeProps [("foo", [("k", PropVal.pInt 1)]),
        ("*oo", [("k", PropVal.pInt 2)])] "foo" []).1 "k" = some (PropVal.pInt 1) := by
  decide

/-- C5 (amended): the property dict used during extraction is merged with
precedence, lowest to highest: the exact-name entry, then the per-class
entries (keys starting with '*' whose suffix the name ends with, later
table entries overriding earlier ones), then the keyword overrides passed
to get; when a key appears in several layers the higher-precedence layer
wins.  (The sensor name is assumed not to be a class pattern itself, and
the keyword overrides form a Python dict, i.e. have unique keys.) -/
theorem claim5_precedence (table : List (String × PropDict)) (name : String)
    (kwargs : PropDict) (k : String)
    (hstar : name.data.head? ≠ some '*')
    (hnodup : (kwargs.map Prod.fst).Nodup) :
    alookup (mergeProps table name kwargs).1 k =
      Option.or (alookup kwargs k)
        (Option.or (alookup (classDicts table name).flatten.reverse k)
          (alookup ((alookup table name).getD []) k)) :=
  mergeProps_lookup table name kwargs k hstar hnodup

/-- C5 witness: the amended precedence theorem applied at a concrete table
with all three layers populated. -/
theorem claim5_precedence_witness :
    alookup (mergeProps [("foo", [("k", PropVal.pInt 1)]),
        ("*oo", [("k", PropVal.pInt 2)])] "foo" [("j", PropVal.pStr "v")]).1 "k" =
      Option.or (alookup [("j", PropVal.pStr "v")] "k")
        (Option.or (alookup (classDicts [("foo", [("k", PropVal.pInt 1)]),
            ("*oo", [("k", PropVal.pInt 2)])] "foo").flatten.reverse "k")
          (alookup ((alookup [("foo", [("k", PropVal.pInt 1)]),
            ("*oo", [("k", PropVal.pInt 2)])] "foo").getD []) "k")) :=
  claim5_precedence _ _ _ _ (by decide) (by decide)

/- ------------------------------------------------------------------ -/
/- Claim C8                                                            -/
/- ------------------------------------------------------------------ -/

/-- C8 counterexample: the claim (and its example) require that the entry
'm012_temperature' with alias rule {'ant1': 'm012'} gains a sibling
'ant1_temperature'.  The code only aliases entries whose name *ends with*
the original suffix, and 'm012_temperature' does not end with 'm012', so no
alias is created at all.  Moreover, for a name that does end with the
suffix, `str.replace` replaces *every* occurrence, not only the suffix:
'm012_m012' gains 'ant1_ant1', not 'm012_ant1'. -/
theorem claim8_alias_counterexample :
    alookup (initEntries [("m012_temperature", Entry.raw ⟨DType.int, [], [], none⟩)]
        [("ant1", "m012")]) "ant1_temperature" = none ∧
      alookup (initEntries [("m012_m012", Entry.raw ⟨DType.int, [], [], none⟩)]
        [("ant1", "m012")]) "m012_ant1" = none ∧
      alookup (initEntries [("m012_m012", Entry.raw ⟨DType.int, [], [], none⟩)]
        [("ant1", "m012")]) "ant1_ant1" =
        some (Entry.raw ⟨DType.int, [], [], none⟩) := by
  decide

/-- C8 (amended): at cache construction, for an alias rule
(alias_suffix, original_suffix), every concrete entry whose name ends with
original_suffix gains an additional entry whose name is the original name
with every occurrence of original_suffix replaced by alias_suffix (Python
`str.replace`), bound to the identical underlying raw series (the same
`Entry`, not a copy).  The uniqueness hypothesis rules out a later entry
overwriting the alias (dict assignment is last-write-wins). -/
theorem claim8_alias (entries : List (String × Entry)) (ali original n : String)
    (d : Entry)
    (hmem : (n, d) ∈ entries)
    (hend : strEndsWith n original = true)
    (huniq : ∀ p ∈ entries, strEndsWith p.1 original = true →
      strReplace p.1 original ali = strReplace n original ali → p.2 = d) :
    alookup (initEntries entries [(ali, original)])
      (strReplace n original ali) = some d := by
  show alookup (initEntries (applyAlias entries ali original entries) []) _ = some d
  show alookup (applyAlias entries ali original entries) _ = some d
  exact applyAlias_lookup ali original n d hend entries entries hmem huniq

/-- C8 witness: the amended alias theorem applied to the concrete entry
'temperature_m012' with rule {'ant1': 'm012'}, yielding 'temperature_ant1'
bound to the same entry. -/
theorem claim8_alias_witness :
    alookup (initEntries [("temperature_m012", Entry.raw ⟨DType.int, [], [], none⟩)]
        [("ant1", "m012")]) "temperature_ant1" =
      some (Entry.raw ⟨DType.int, [], [], none⟩) :=
  claim8_alias _ "ant1" "m012" "temperature_m012" _ (by decide) (by decide) (by decide)

/- ------------------------------------------------------------------ -/
/- Stable-sort lemmas for the cleaning pass                            -/
/- ------------------------------------------------------------------ -/

theorem mem_insertRow (r x : ℚ × α) (l : List (ℚ × α)) :
    x ∈ insertRow r l ↔ x = r ∨ x ∈ l := by
  induction l with
  | nil => simp [insertRow]
  | cons b l ih =>
    by_cases h : r.1 ≤ b.1
    · simp only [insertRow]
      rw [if_pos h]
      simp only [List.mem_cons]
    · simp only [insertRow]
      rw [if_neg h]
      simp only [List.mem_cons, ih]
      tauto

theorem insertRow_sorted (r : ℚ × α) (l : List (ℚ × α))
    (hl : List.Pairwise (fun a b => a.1 ≤ b.1) l) :
    List.Pairwise (fun a b : ℚ × α => a.1 ≤ b.1) (insertRow r l) := by
  induction l with
  | nil => simp [insertRow]
  | cons b l ih =>
    rw [List.pairwise_cons] at hl
    by_cases h : r.1 ≤ b.1
    · simp only [insertRow]
      rw [if_pos h, List.pairwise_cons]
      refine ⟨?_, List.pairwise_cons.2 hl⟩
      intro x hx
      rcases List.mem_cons.1 hx with he | hm
      · exact he ▸ h
      · exact le_trans h (hl.1 x hm)
    · simp only [insertRow]
      rw [if_neg h, List.pairwise_cons]
      refine ⟨?_, ih hl.2⟩
      intro x hx
      rcases (mem_insertRow r x l).1 hx with he | hm
      · exact he ▸ le_of_lt (lt_of_not_le h)
      · exact hl.1 x hm

theorem sortRows_sorted (l : List (ℚ × α)) :
    List.Pairwise (fun a b : ℚ × α => a.1 ≤ b.1) (sortRows l) := by
  induction l with
  | nil => simp [sortRows]
  | cons r l ih => exact insertRow_sorted r (sortRows l) ih

theorem filter_insertRow_eq (r : ℚ × α) (l : List (ℚ × α)) (t : ℚ) (h : r.1 = t) :
    (insertRow r l).filter (fun p => decide (p.1 = t)) =
      r :: l.filter (fun p => decide (p.1 = t)) := by
  induction l with
  | nil => simp [insertRow, List.filter, h]
  | cons b l ih =>
    by_cases hle : r.1 ≤ b.1
    · simp only [insertRow]
      rw [if_pos hle]
      simp [List.filter_cons, h]
    · have hbt : ¬ b.1 = t := by
        have hblt : b.1 < r.1 := lt_of_not_le hle
        rw [h] at hblt
        exact ne_of_lt hblt
      simp only [insertRow]
      rw [if_neg hle]
      simp [List.filter_cons, hbt, ih]

theorem filter_insertRow_ne (r : ℚ × α) (l : List (ℚ × α)) (t : ℚ) (h : ¬ r.1 = t) :
    (insertRow r l).filter (fun p => decide (p.1 = t)) =
      l.filter (fun p => decide (p.1 = t)) := by
  induction l with
  | nil => simp [insertRow, List.filter, h]
  | cons b l ih =>
    by_cases hle : r.1 ≤ b.1
    · simp only [insertRow]
      rw [if_pos hle]
      simp [List.filter_cons, h]
    · simp only [insertRow]
      rw [if_neg hle]
      simp [List.filter_cons, ih]

theorem sortRows_filter (l : List (ℚ × α)) (t : ℚ) :
    (sortRows l).filter (fun p => decide (p.1 = t)) =
      l.filter (fun p => decide (p.1 = t)) := by
  induction l with
  | nil => rfl
  | cons r l ih =>
    show (insertRow r (sortRows l)).filter _ = _
    by_cases h : r.1 = t
    · rw [filter_insertRow_eq r _ t h, ih, List.filter_cons]
      simp [h]
    · rw [filter_insertRow_ne r _ t h, ih, List.filter_cons]
      simp [h]

theorem getD_map_fst [Inhabited α] (rows : List (ℚ × α)) (d₀ : ℚ × α) (j : ℕ)
    (hj : j < rows.length) :
    (rows.map Prod.fst).getD j 0 = (rows.getD j d₀).1 := by
  rw [List.getD_eq_getElem _ _ (by simpa using hj), List.getD_eq_getElem _ _ hj,
    List.getElem_map]

theorem sorted_getD_le (xs : List ℚ) (h : List.Pairwise (· ≤ ·) xs) (i j : ℕ)
    (hij : i ≤ j) (hj : j < xs.length) : xs.getD i 0 ≤ xs.getD j 0 := by
  rcases lt_or_eq_of_le hij with hlt | he
  · rw [List.getD_eq_getElem _ _ (lt_trans hlt hj), List.getD_eq_getElem _ _ hj]
    exact List.pairwise_iff_getElem.1 h i j (lt_trans hlt hj) hj hlt
  · rw [he]

theorem filter_getLast_lastOfRun [Inhabited α] (rows : List (ℚ × α)) (d₀ : ℚ × α)
    (hs : List.Pairwise (fun a b : ℚ × α => a.1 ≤ b.1) rows) (k : ℕ)
    (hk : k < rows.length)
    (hrun : k + 1 = rows.length ∨
      ¬ (rows.map Prod.fst).getD k 0 = (rows.map Prod.fst).getD (k + 1) 0) :
    (rows.filter (fun p => decide (p.1 = (rows.getD k d₀).1))).getLast? =
      some (rows.getD k d₀) := by
  have hxs : List.Pairwise (· ≤ ·) (rows.map Prod.fst) := List.pairwise_map.2 hs
  have hdrop : (rows.drop (k + 1)).filter
      (fun p => decide (p.1 = (rows.getD k d₀).1)) = [] := by
    by_cases hk1 : k + 1 < rows.length
    · have hne : ¬ (rows.map Prod.fst).getD k 0 = (rows.map Prod.fst).getD (k + 1) 0 := by
        rcases hrun with hlast | hne
        · omega
        · exact hne
      rw [List.filter_eq_nil_iff]
      intro p hp
      rw [List.mem_iff_getElem] at hp
      obtain ⟨j, hjlen, hjp⟩ := hp
      have hjl : k + 1 + j < rows.length := by
        rw [List.length_drop] at hjlen
        omega
      have hp : p = rows.getD (k + 1 + j) d₀ := by
        rw [← hjp, List.getElem_drop, List.getD_eq_getElem _ _ hjl]
      have hple : (rows.map Prod.fst).getD (k + 1) 0 ≤ (rows.getD (k + 1 + j) d₀).1 := by
        have hle := sorted_getD_le (rows.map Prod.fst) hxs (k + 1) (k + 1 + j)
          (Nat.le_add_right _ _) (by simpa using hjl)
        rw [getD_map_fst rows d₀ (k + 1 + j) hjl] at hle
        exact hle
      have hklt : (rows.getD k d₀).1 < (rows.map Prod.fst).getD (k + 1) 0 := by
        have hle := sorted_getD_le (rows.map Prod.fst) hxs k (k + 1)
          (Nat.le_succ k) (by simpa using hk1)
        rw [getD_map_fst rows d₀ k hk] at hle
        rcases lt_or_eq_of_le hle with h | h
        · exact h
        · exact absurd (by rw [getD_map_fst rows d₀ k hk]; exact h) hne
      simp only [decide_eq_true_eq]
      intro he
      rw [hp] at he
      exact absurd (he ▸ lt_of_lt_of_le hklt hple) (lt_irrefl _)
    · rw [List.drop_eq_nil_of_le (by omega)]
      rfl
  have htake : (rows.take (k + 1)).filter
      (fun p => decide (p.1 = (rows.getD k d₀).1)) =
      (rows.take k).filter (fun p => decide (p.1 = (rows.getD k d₀).1)) ++
        [rows.getD k d₀] := by
    rw [List.take_succ, List.getElem?_eq_getElem hk, List.filter_append]
    congr 1
    have he : rows[k] = rows.getD k d₀ := (List.getD_eq_getElem rows d₀ hk).symm
    simp [Option.toList, List.filter, he]
  set t := (rows.getD k d₀).1 with ht
  conv_lhs => rw [← List.take_append_drop (k + 1) rows]
  rw [List.filter_append, hdrop, List.append_nil, htake, List.getLast?_concat]

theorem cleaning_core {α : Type} [Inhabited α] (rows : List (ℚ × α)) (keptInd : List ℕ)
    (hs : List.Pairwise (fun a b : ℚ × α => a.1 ≤ b.1) rows)
    (hPk : List.Pairwise (· < ·) keptInd)
    (hmem : ∀ k ∈ keptInd, k < rows.length ∧ (k + 1 = rows.length ∨
      ¬ (rows.map Prod.fst).getD k 0 = (rows.map Prod.fst).getD (k + 1) 0)) :
    List.Pairwise (· < ·) (keptInd.map (fun i => (rows.map Prod.fst).getD i 0)) ∧
    ∀ i, i < keptInd.length →
      (rows.filter (fun p => decide (p.1 =
          (keptInd.map (fun i => (rows.map Prod.fst).getD i 0)).getD i 0))).getLast? =
        some ((keptInd.map (fun i => (rows.map Prod.fst).getD i 0)).getD i 0,
          (keptInd.map (fun i => (rows.getD i (0, default)).2)).getD i default) := by
  have hxs : List.Pairwise (· ≤ ·) (rows.map Prod.fst) := List.pairwise_map.2 hs
  constructor
  · rw [List.pairwise_map]
    refine List.Pairwise.imp_of_mem ?_ hPk
    intro a b ha hb hab
    obtain ⟨halen, harun⟩ := hmem a ha
    obtain ⟨hblen, _⟩ := hmem b hb
    have ha1 : ¬ a + 1 = rows.length := by omega
    have hane := harun.resolve_left ha1
    have h₁ : (rows.map Prod.fst).getD a 0 ≤ (rows.map Prod.fst).getD (a + 1) 0 :=
      sorted_getD_le _ hxs a (a + 1) (Nat.le_succ a) (by simp only [List.length_map]; omega)
    have h₂ : (rows.map Prod.fst).getD (a + 1) 0 ≤ (rows.map Prod.fst).getD b 0 :=
      sorted_getD_le _ hxs (a + 1) b (by omega) (by simpa using hblen)
    exact lt_of_lt_of_le (lt_of_le_of_ne h₁ hane) h₂
  · intro i hi
    have hmapt : (keptInd.map (fun i => (rows.map Prod.fst).getD i 0)).getD i 0 =
        (rows.map Prod.fst).getD (keptInd.getD i 0) 0 := by
      rw [List.getD_eq_getElem _ _ (by simpa using hi), List.getElem_map,
        List.getD_eq_getElem _ _ hi]
    have hmapv : (keptInd.map (fun i => (rows.getD i (0, default)).2)).getD i default =
        (rows.getD (keptInd.getD i 0) (0, default)).2 := by
      rw [List.getD_eq_getElem _ _ (by simpa using hi), List.getElem_map,
        List.getD_eq_getElem _ _ hi]
    have hkmem : keptInd.getD i 0 ∈ keptInd := by
      rw [List.getD_eq_getElem _ _ hi]
      exact List.getElem_mem _
    obtain ⟨hklt, hrun⟩ := hmem _ hkmem
    have hmain := filter_getLast_lastOfRun rows (0, default) hs _ hklt hrun
    rw [hmapt, hmapv, getD_map_fst rows (0, default) _ hklt, hmain]

theorem cleanKeptInd_spec {α : Type} [Inhabited α] (s : SensorData α) :
    List.Pairwise (· < ·) (cleanKeptInd s) ∧
    ∀ k ∈ cleanKeptInd s, k < (sortRows (s.timestamp.zip s.value)).length ∧
      (k + 1 = (sortRows (s.timestamp.zip s.value)).length ∨
        ¬ ((sortRows (s.timestamp.zip s.value)).map Prod.fst).getD k 0 =
          ((sortRows (s.timestamp.zip s.value)).map Prod.fst).getD (k + 1) 0) := by
  have hbase : ∀ k ∈ lastOfRunIdx ((sortRows (s.timestamp.zip s.value)).map Prod.fst),
      k < (sortRows (s.timestamp.zip s.value)).length ∧
      (k + 1 = (sortRows (s.timestamp.zip s.value)).length ∨
        ¬ ((sortRows (s.timestamp.zip s.value)).map Prod.fst).getD k 0 =
          ((sortRows (s.timestamp.zip s.value)).map Prod.fst).getD (k + 1) 0) := by
    intro k hk
    rw [lastOfRunIdx, List.mem_filter, List.mem_range] at hk
    obtain ⟨hklen, hpred⟩ := hk
    rw [List.length_map] at hklen
    refine ⟨hklen, ?_⟩
    simp only [Bool.or_eq_true, decide_eq_true_eq, Bool.not_eq_eq_eq_not,
      Bool.not_true, decide_eq_false_iff_not] at hpred
    rcases hpred with h | h
    · left
      rw [h, List.length_map]
    · right
      exact h
  have hpw : List.Pairwise (· < ·)
      (lastOfRunIdx ((sortRows (s.timestamp.zip s.value)).map Prod.fst)) :=
    (List.pairwise_lt_range _).filter _
  cases hst : s.status with
  | none =>
    simp only [cleanKeptInd, hst]
    exact ⟨hpw, hbase⟩
  | some z =>
    simp only [cleanKeptInd, hst]
    refine ⟨hpw.filter _, ?_⟩
    intro k hk
    exact hbase k (List.mem_of_mem_filter hk)

/-- C2 counterexample: the claim quantifies over *every* raw sensor series,
but on the empty series the cleaning pass does not return a cleaned series
at all — the source raises IndexError (`y[replacement]` with
`replacement = [0]` on an empty value array), modelled as `none`. -/
theorem claim2_cleaning_counterexample :
    remove_duplicates_and_invalid_values
      (⟨DType.int, [], [], none⟩ : SensorData SValue) = none := by decide

/-- C2 (amended): for every *non-empty* raw sensor series (with parallel
fields of equal length), the cleaning pass returns a series whose timestamps
are strictly ascending (hence duplicate-free), and every output row carries
the value of the *last* occurrence of its timestamp among the original
rows — last in original order, which the stable sort preserves among equal
timestamps.  (On the empty series the source raises IndexError instead of
returning.) -/
theorem claim2_cleaning {α : Type} [Inhabited α] (s : SensorData α)
    (hlen : s.value.length = s.timestamp.length)
    (hne : s.timestamp.length ≠ 0) :
    ∃ out, remove_duplicates_and_invalid_values s = some out ∧
      List.Pairwise (· < ·) out.timestamp ∧
      ∀ i, i < out.timestamp.length →
        ((s.timestamp.zip s.value).filter (fun p => decide (p.1 =
            out.timestamp.getD i 0))).getLast? =
          some (out.timestamp.getD i 0, out.value.getD i default) := by
  obtain ⟨hPk, hmem⟩ := cleanKeptInd_spec s
  obtain ⟨hA, hB⟩ := cleaning_core (sortRows (s.timestamp.zip s.value)) (cleanKeptInd s)
    (sortRows_sorted _) hPk hmem
  refine ⟨{ dtype := s.dtype
            timestamp := (cleanKeptInd s).map (fun i =>
              ((sortRows (s.timestamp.zip s.value)).map Prod.fst).getD i 0)
            value := (cleanKeptInd s).map (fun i =>
              ((sortRows (s.timestamp.zip s.value)).getD i (0, default)).2)
            status := none }, ?_, ?_, ?_⟩
  · simp only [remove_duplicates_and_invalid_values]
    rw [if_neg hne]
  · exact hA
  · intro i hi
    have hi' : i < (cleanKeptInd s).length := by
      simpa using hi
    have hres := hB i hi'
    rw [sortRows_filter] at hres
    exact hres

/-- C2 witness: the cleaning theorem applied to a concrete series with a
duplicate timestamp. -/
theorem claim2_cleaning_witness :
    ∃ out, remove_duplicates_and_invalid_values
        (⟨DType.int, [1, 1, 2], [SValue.int 7, SValue.int 8, SValue.int 9],
          none⟩ : SensorData SValue) = some out ∧
      List.Pairwise (· < ·) out.timestamp ∧
      ∀ i, i < out.timestamp.length →
        (([(1 : ℚ), 1, 2].zip [SValue.int 7, SValue.int 8, SValue.int 9]).filter
            (fun p => decide (p.1 = out.timestamp.getD i 0))).getLast? =
          some (out.timestamp.getD i 0, out.value.getD i default) :=
  claim2_cleaning
    ⟨DType.int, [1, 1, 2], [SValue.int 7, SValue.int 8, SValue.int 9], none⟩
    (by decide) (by decide)

/- ------------------------------------------------------------------ -/
/- Interpolation lemmas                                                -/
/- ------------------------------------------------------------------ -/

theorem sorted_getD_lt (xs : List ℚ) (h : List.Pairwise (· < ·) xs) (i j : ℕ)
    (hij : i < j) (hj : j < xs.length) : xs.getD i 0 < xs.getD j 0 := by
  rw [List.getD_eq_getElem _ _ (lt_trans hij hj), List.getD_eq_getElem _ _ hj]
  exact List.pairwise_iff_getElem.1 h i j (lt_trans hij hj) hj hij

theorem countP_split (xi : List ℚ) (q : ℚ) (k : ℕ) (hk : k ≤ xi.length)
    (hlow : ∀ j, j < k → xi.getD j 0 < q)
    (hhigh : ∀ j, k ≤ j → j < xi.length → ¬ xi.getD j 0 < q) :
    searchsorted xi q = k := by
  rw [searchsorted]
  conv_lhs => rw [← List.take_append_drop k xi]
  rw [List.countP_append]
  have h₁ : (xi.take k).countP (fun v => decide (v < q)) = k := by
    have hall : ∀ a ∈ xi.take k, (fun v => decide (v < q)) a = true := by
      intro a ha
      rw [List.mem_iff_getElem] at ha
      obtain ⟨j, hj, hja⟩ := ha
      have hjk : j < k := by
        rw [List.length_take] at hj
        omega
      have hjlen : j < xi.length := by
        rw [List.length_take] at hj
        omega
      have hje : (xi.take k)[j] = xi[j] := List.getElem_take _
      rw [hje] at hja
      rw [decide_eq_true_eq, ← hja, ← List.getD_eq_getElem xi 0 hjlen]
      exact hlow j hjk
    rw [List.countP_eq_length.2 hall, List.length_take]
    exact min_eq_left hk
  have h₂ : (xi.drop k).countP (fun v => decide (v < q)) = 0 := by
    rw [List.countP_eq_zero]
    intro a ha
    rw [List.mem_iff_getElem] at ha
    obtain ⟨j, hj, hja⟩ := ha
    have hjlen : k + j < xi.length := by
      rw [List.length_drop] at hj
      omega
    have hje : (xi.drop k)[j] = xi[k + j] := List.getElem_drop _
    rw [hje] at hja
    simp only [decide_eq_true_eq]
    rw [← hja, ← List.getD_eq_getElem xi 0 hjlen]
    exact hhigh (k + j) (Nat.le_add_right _ _) hjlen
  rw [h₁, h₂]
  omega

theorem searchsorted_at_node (xi : List ℚ) (hs : List.Pairwise (· < ·) xi)
    (i : ℕ) (hi : i < xi.length) : searchsorted xi (xi.getD i 0) = i := by
  apply countP_split xi _ i (le_of_lt hi)
  · intro j hj
    exact sorted_getD_lt xi hs j i hj hi
  · intro j hij hj
    rcases lt_or_eq_of_le hij with h | h
    · exact not_lt.2 (le_of_lt (sorted_getD_lt xi hs i j h hj))
    · rw [← h]
      exact lt_irrefl _

theorem getD_isSome_of_all_some (yi : List (Option ℚ))
    (hnum : ∀ v ∈ yi, v ≠ none) (j : ℕ) (hj : j < yi.length) :
    ∃ a, yi.getD j none = some a := by
  have hmem : yi.getD j none ∈ yi := by
    rw [List.getD_eq_getElem _ _ hj]
    exact List.getElem_mem _
  cases h : yi.getD j none with
  | none => exact absurd h (hnum _ hmem)
  | some a => exact ⟨a, rfl⟩

theorem interpPoint_eval (xi : List ℚ) (yi : List (Option ℚ)) (q : ℚ) (m s e : ℕ)
    (hss : searchsorted xi q = m)
    (he : (if (if m = 0 then m + 1 else m) = xi.length
        then (if m = 0 then m + 1 else m) - 1
        else (if m = 0 then m + 1 else m)) = e)
    (hs' : e - 1 = s) :
    interpPoint xi yi q =
      match yi.getD s none, yi.getD e none with
      | some ys, some ye =>
        some ((1 - min (max ((q - xi.getD s 0) / (xi.getD e 0 - xi.getD s 0)) 0) 1) * ys +
          min (max ((q - xi.getD s 0) / (xi.getD e 0 - xi.getD s 0)) 0) 1 * ye)
      | _, _ => none := by
  subst hss
  subst he
  subst hs'
  rfl

theorem interp_single (xi : List ℚ) (yi : List (Option ℚ)) (h1 : xi.length = 1)
    (x : List ℚ) :
    safe_linear_interp xi yi x = x.map (fun _ => yi.getD 0 none) := by
  rw [safe_linear_interp, if_pos h1]
  have hid : (yi.getD 0 none).map (· * 1) = yi.getD 0 none := by
    cases yi.getD 0 none <;> simp
  rw [hid]

theorem interp_at_node (xi : List ℚ) (yi : List (Option ℚ))
    (hs : List.Pairwise (· < ·) xi) (hlen : yi.length = xi.length)
    (hnum : ∀ v ∈ yi, v ≠ none) (h2 : 1 < xi.length) (i : ℕ) (hi : i < xi.length) :
    interpPoint xi yi (xi.getD i 0) = yi.getD i none := by
  have hss := searchsorted_at_node xi hs i hi
  by_cases hi0 : i = 0
  · subst hi0
    obtain ⟨a0, ha0⟩ := getD_isSome_of_all_some yi hnum 0 (by omega)
    obtain ⟨a1, ha1⟩ := getD_isSome_of_all_some yi hnum 1 (by omega)
    rw [interpPoint_eval xi yi _ 0 0 1 hss
      (by rw [if_pos rfl, if_neg (show ¬ (0 + 1 = xi.length) by omega)]) rfl]
    rw [ha0, ha1]
    rw [sub_self, zero_div]
    rw [max_self, min_eq_left zero_le_one]
    simp
  · have hi1 : 1 ≤ i := by omega
    obtain ⟨a0, ha0⟩ := getD_isSome_of_all_some yi hnum (i - 1) (by omega)
    obtain ⟨a1, ha1⟩ := getD_isSome_of_all_some yi hnum i (by omega)
    rw [interpPoint_eval xi yi _ i (i - 1) i hss
      (by rw [if_neg hi0, if_neg (show ¬ (i = xi.length) by omega)]) rfl]
    rw [ha0, ha1]
    have hlt : xi.getD (i - 1) 0 < xi.getD i 0 :=
      sorted_getD_lt xi hs (i - 1) i (by omega) hi
    rw [div_self (sub_ne_zero.2 (ne_of_gt hlt))]
    rw [max_eq_left zero_le_one, min_self]
    simp

theorem interp_clamp_lo (xi : List ℚ) (yi : List (Option ℚ))
    (hs : List.Pairwise (· < ·) xi) (hlen : yi.length = xi.length)
    (hnum : ∀ v ∈ yi, v ≠ none) (h2 : 1 < xi.length) (q : ℚ)
    (hq : q < xi.getD 0 0) :
    interpPoint xi yi q = yi.getD 0 none := by
  have hss : searchsorted xi q = 0 := by
    apply countP_split xi q 0 (Nat.zero_le _)
    · intro j hj
      omega
    · intro j _ hj
      have h0j : xi.getD 0 0 ≤ xi.getD j 0 :=
        sorted_getD_le xi (hs.imp le_of_lt) 0 j (Nat.zero_le _) hj
      exact not_lt.2 (le_of_lt (lt_of_lt_of_le hq h0j))
  obtain ⟨a0, ha0⟩ := getD_isSome_of_all_some yi hnum 0 (by omega)
  obtain ⟨a1, ha1⟩ := getD_isSome_of_all_some yi hnum 1 (by omega)
  rw [interpPoint_eval xi yi q 0 0 1 hss
    (by rw [if_pos rfl, if_neg (show ¬ (0 + 1 = xi.length) by omega)]) rfl]
  rw [ha0, ha1]
  have hd : (0 : ℚ) < xi.getD 1 0 - xi.getD 0 0 :=
    sub_pos.2 (sorted_getD_lt xi hs 0 1 one_pos h2)
  have hw0 : (q - xi.getD 0 0) / (xi.getD 1 0 - xi.getD 0 0) < 0 :=
    div_neg_of_neg_of_pos (sub_neg.2 hq) hd
  rw [max_eq_right (le_of_lt hw0), min_eq_left zero_le_one]
  simp

theorem interp_clamp_hi (xi : List ℚ) (yi : List (Option ℚ))
    (hs : List.Pairwise (· < ·) xi) (hlen : yi.length = xi.length)
    (hnum : ∀ v ∈ yi, v ≠ none) (h2 : 1 < xi.length) (q : ℚ)
    (hq : xi.getD (xi.length - 1) 0 < q) :
    interpPoint xi yi q = yi.getD (xi.length - 1) none := by
  have hss : searchsorted xi q = xi.length := by
    apply countP_split xi q xi.length (le_refl _)
    · intro j hj
      have hjle : xi.getD j 0 ≤ xi.getD (xi.length - 1) 0 :=
        sorted_getD_le xi (hs.imp le_of_lt) j (xi.length - 1) (by omega) (by omega)
      exact lt_of_le_of_lt hjle hq
    · intro j hj hj'
      omega
  obtain ⟨a0, ha0⟩ := getD_isSome_of_all_some yi hnum (xi.length - 1 - 1) (by omega)
  obtain ⟨a1, ha1⟩ := getD_isSome_of_all_some yi hnum (xi.length - 1) (by omega)
  rw [interpPoint_eval xi yi q xi.length (xi.length - 1 - 1) (xi.length - 1) hss
    (by rw [if_neg (show ¬ (xi.length = 0) by omega), if_pos rfl]) rfl]
  rw [ha0, ha1]
  have hd : (0 : ℚ) < xi.getD (xi.length - 1) 0 - xi.getD (xi.length - 1 - 1) 0 :=
    sub_pos.2 (sorted_getD_lt xi hs (xi.length - 1 - 1) (xi.length - 1)
      (by omega) (by omega))
  have hw1 : 1 < (q - xi.getD (xi.length - 1 - 1) 0) /
      (xi.getD (xi.length - 1) 0 - xi.getD (xi.length - 1 - 1) 0) :=
    (one_lt_div hd).2 (by linarith)
  rw [max_eq_left (le_of_lt (lt_trans zero_lt_one hw1)), min_eq_right (le_of_lt hw1)]
  simp

theorem interp_midpoint (xi : List ℚ) (yi : List (Option ℚ))
    (hs : List.Pairwise (· < ·) xi) (hlen : yi.length = xi.length)
    (i : ℕ) (hi : i + 1 < xi.length) (a b : ℚ)
    (ha : yi.getD i none = some a) (hb : yi.getD (i + 1) none = some b) :
    interpPoint xi yi ((xi.getD i 0 + xi.getD (i + 1) 0) / 2) = some ((a + b) / 2) := by
  have hadj : xi.getD i 0 < xi.getD (i + 1) 0 :=
    sorted_getD_lt xi hs i (i + 1) (Nat.lt_succ_self i) hi
  have hmid_lo : xi.getD i 0 < (xi.getD i 0 + xi.getD (i + 1) 0) / 2 := by linarith
  have hmid_hi : (xi.getD i 0 + xi.getD (i + 1) 0) / 2 < xi.getD (i + 1) 0 := by linarith
  have hss : searchsorted xi ((xi.getD i 0 + xi.getD (i + 1) 0) / 2) = i + 1 := by
    apply countP_split xi _ (i + 1) (by omega)
    · intro j hj
      have : xi.getD j 0 ≤ xi.getD i 0 :=
        sorted_getD_le xi (hs.imp le_of_lt) j i (by omega) (by omega)
      linarith
    · intro j hj hj'
      have : xi.getD (i + 1) 0 ≤ xi.getD j 0 :=
        sorted_getD_le xi (hs.imp le_of_lt) (i + 1) j hj hj'
      exact not_lt.2 (by linarith)
  rw [interpPoint_eval xi yi _ (i + 1) i (i + 1) hss
    (by rw [if_neg (show ¬ (i + 1 = 0) by omega),
      if_neg (show ¬ (i + 1 = xi.length) by omega)]) (by omega)]
  rw [ha, hb]
  have hd : xi.getD (i + 1) 0 - xi.getD i 0 ≠ 0 := sub_ne_zero.2 (ne_of_gt hadj)
  have hw : ((xi.getD i 0 + xi.getD (i + 1) 0) / 2 - xi.getD i 0) /
      (xi.getD (i + 1) 0 - xi.getD i 0) = 1 / 2 := by
    rw [div_eq_div_iff hd two_ne_zero]
    ring
  rw [hw]
  rw [max_eq_left (by norm_num), min_eq_left (by norm_num)]
  show some ((1 - 1 / 2) * a + 1 / 2 * b) = some ((a + b) / 2)
  have harith : (1 - 1 / 2 : ℚ) * a + 1 / 2 * b = (a + b) / 2 := by ring
  rw [harith]

/-- C1: linear interpolation of a cleaned numeric series onto the cache
timeline: a single input point is broadcast to every query; a query exactly
at an input node returns that node's value; queries outside the input range
return the boundary value (no extrapolation); a query at the midpoint of two
adjacent nodes returns their average; and for timeline [0,1,2,3,4], sensor
timestamps [1,3] and values [10,20] the resolved array (also end-to-end
through `SensorCache.get`) equals [10,10,15,20,20]. -/
theorem claim1_linear_interp (xi : List ℚ) (yi : List (Option ℚ))
    (hs : List.Pairwise (· < ·) xi) (hlen : yi.length = xi.length)
    (hnum : ∀ v ∈ yi, v ≠ none) :
    (xi.length = 1 → ∀ x : List ℚ,
      safe_linear_interp xi yi x = x.map (fun _ => yi.getD 0 none)) ∧
    (1 < xi.length → ∀ i, i < xi.length →
      interpPoint xi yi (xi.getD i 0) = yi.getD i none) ∧
    (1 < xi.length → ∀ q : ℚ, q < xi.getD 0 0 →
      interpPoint xi yi q = yi.getD 0 none) ∧
    (1 < xi.length → ∀ q : ℚ, xi.getD (xi.length - 1) 0 < q →
      interpPoint xi yi q = yi.getD (xi.length - 1) none) ∧
    (∀ i, i + 1 < xi.length → ∀ a b : ℚ,
      yi.getD i none = some a → yi.getD (i + 1) none = some b →
      interpPoint xi yi ((xi.getD i 0 + xi.getD (i + 1) 0) / 2) =
        some ((a + b) / 2)) ∧
    safe_linear_interp [1, 3] [some 10, some 20] [0, 1, 2, 3, 4] =
      [some 10, some 10, some 15, some 20, some 20] ∧
    (SensorCache.get ⟨[("temp", Entry.raw ⟨DType.float, [1, 3],
        [SValue.num 10, SValue.num 20], none⟩)], [0, 1, 2, 3, 4], 1, [0], [], []⟩
      "temp" false true []).toOption.map Prod.fst =
      some (Value.arr [some 10, some 10, some 15, some 20, some 20]) := by
  have hs' : List.Pairwise (· < ·) ([1, 3] : List ℚ) := by decide
  have hlen' : ([some 10, some 20] : List (Option ℚ)).length =
      ([1, 3] : List ℚ).length := rfl
  have hnum' : ∀ v ∈ ([some 10, some 20] : List (Option ℚ)), v ≠ none := by decide
  have h0 : interpPoint [1, 3] [some 10, some 20] 0 = some 10 := by
    have h := interp_clamp_lo [1, 3] [some 10, some 20] hs' hlen' hnum'
      (by norm_num) 0 (by norm_num [List.getD_cons_zero])
    exact h
  have h1 : interpPoint [1, 3] [some 10, some 20] 1 = some 10 := by
    have h := interp_at_node [1, 3] [some 10, some 20] hs' hlen' hnum'
      (by norm_num) 0 (by norm_num)
    exact h
  have hmid : interpPoint [1, 3] [some 10, some 20] 2 = some 15 := by
    have h := interp_midpoint [1, 3] [some 10, some 20] hs' hlen' 0
      (by norm_num) 10 20 rfl rfl
    norm_num [List.getD_cons_zero, List.getD_cons_succ] at h
    exact h
  have h3 : interpPoint [1, 3] [some 10, some 20] 3 = some 20 := by
    have h := interp_at_node [1, 3] [some 10, some 20] hs' hlen' hnum'
      (by norm_num) 1 (by norm_num)
    exact h
  have h4 : interpPoint [1, 3] [some 10, some 20] 4 = some 20 := by
    have h := interp_clamp_hi [1, 3] [some 10, some 20] hs' hlen' hnum'
      (by norm_num) 4 (by norm_num [List.getD_cons_zero, List.getD_cons_succ])
    exact h
  have hlist : safe_linear_interp [1, 3] [some 10, some 20] [0, 1, 2, 3, 4] =
      [some 10, some 10, some 15, some 20, some 20] := by
    rw [safe_linear_interp, if_neg (by decide : ¬ (([1, 3] : List ℚ).length = 1))]
    simp only [List.map_cons, List.map_nil]
    rw [h0, h1, hmid, h3, h4]
  refine ⟨fun h1 x => interp_single xi yi h1 x,
    fun h2 i hi => interp_at_node xi yi hs hlen hnum h2 i hi,
    fun h2 q hq => interp_clamp_lo xi yi hs hlen hnum h2 q hq,
    fun h2 q hq => interp_clamp_hi xi yi hs hlen hnum h2 q hq,
    fun i hi a b ha hb => interp_midpoint xi yi hs hlen i hi a b ha hb,
    hlist, ?_⟩
  have hget : (SensorCache.get ⟨[("temp", Entry.raw ⟨DType.float, [1, 3],
      [SValue.num 10, SValue.num 20], none⟩)], [0, 1, 2, 3, 4], 1, [0], [], []⟩
      "temp" false true []).toOption.map Prod.fst =
      some (Value.arr (safe_linear_interp [1, 3] [some 10, some 20]
        [0, 1, 2, 3, 4])) := rfl
  rw [hget, hlist]

/-- C1 witness: the interpolation theorem applied at the concrete scenario
inputs. -/
theorem claim1_linear_interp_witness :
    safe_linear_interp [1, 3] [some 10, some 20] [0, 1, 2, 3, 4] =
      [some 10, some 10, some 15, some 20, some 20] :=
  (claim1_linear_interp [1, 3] [some 10, some 20] (by decide) rfl
    (by decide)).2.2.2.2.2.1

/- ------------------------------------------------------------------ -/
/- SensorCache.get lemmas                                              -/
/- ------------------------------------------------------------------ -/

/-- A cache entry that has reached the resolved state. -/
def resolvedAt (c : SensorCache) (n : String) : Prop :=
  ∃ e, alookup c.entries n = some e ∧ e.isRaw = false

theorem dispatchValue_shape (props : PropDict) (timeline : List ℚ) (dump : ℚ)
    (sd : SensorData SValue) :
    (dispatchValue props timeline dump sd).1.toEntry.isRaw = false ∧
      (dispatchValue props timeline dump sd).1.toEntry.toValue =
        (dispatchValue props timeline dump sd).1 := by
  rw [dispatchValue]
  split
  · exact ⟨rfl, rfl⟩
  · exact ⟨rfl, rfl⟩

theorem get_of_resolved (c : SensorCache) (name : String) (e : Entry)
    (kwargs : PropDict) (he : alookup c.entries name = some e)
    (hraw : e.isRaw = false) (select : Bool) :
    SensorCache.get c name select true kwargs =
      .ok (if select then selectValue c.keep e.toValue else e.toValue, c) := by
  cases e with
  | raw s => simp [Entry.isRaw] at hraw
  | arr a => simp [SensorCache.get, he, Entry.toValue]
  | categ r => simp [SensorCache.get, he, Entry.toValue]

theorem get_extract_raw (c : SensorCache) (name : String) (kwargs : PropDict)
    (s : SensorData SValue) (he : alookup c.entries name = some (.raw s))
    (select : Bool) :
    SensorCache.get c name select true kwargs =
      .ok (if select
          then selectValue (extractRaw c name kwargs s).2.keep
            (extractRaw c name kwargs s).1
          else (extractRaw c name kwargs s).1,
        (extractRaw c name kwargs s).2) := by
  simp [SensorCache.get, he, Entry.toValue]

theorem get_virtual_extract (c : SensorCache) (name : String) (kwargs : PropDict)
    (ctor : VirtualCtor) (bs : Bindings)
    (hnone : alookup c.entries name = none)
    (hfv : findVirtual c.virtual name = some (ctor, bs)) (select : Bool) :
    SensorCache.get c name select true kwargs =
      .ok (if select
          then selectValue (extractRaw c name kwargs (ctor name bs)).2.keep
            (extractRaw c name kwargs (ctor name bs)).1
          else (extractRaw c name kwargs (ctor name bs)).1,
        (extractRaw c name kwargs (ctor name bs)).2) := by
  simp [SensorCache.get, hnone, hfv]

theorem get_virtual_noextract (c : SensorCache) (name : String) (kwargs : PropDict)
    (ctor : VirtualCtor) (bs : Bindings)
    (hnone : alookup c.entries name = none)
    (hfv : findVirtual c.virtual name = some (ctor, bs)) :
    SensorCache.get c name false false kwargs = .ok (.raw (ctor name bs), c) := by
  simp [SensorCache.get, hnone, hfv]

theorem get_keyError (c : SensorCache) (name : String) (kwargs : PropDict)
    (hnone : alookup c.entries name = none)
    (hfv : findVirtual c.virtual name = none) (select extract : Bool)
    (hok : ¬ (select = true ∧ extract = false)) :
    SensorCache.get c name select extract kwargs =
      .error (.keyError ("Unknown sensor '" ++ name ++
        "' (does not match actual name or virtual template)")) := by
  simp [SensorCache.get, hnone, hfv, hok]

theorem extractRaw_spec (c : SensorCache) (name : String) (kwargs : PropDict)
    (s : SensorData SValue) :
    ∃ e : Entry, e.isRaw = false ∧ e.toValue = (extractRaw c name kwargs s).1 ∧
      (extractRaw c name kwargs s).2.entries = aupdate c.entries name e ∧
      (extractRaw c name kwargs s).2.keep = c.keep := by
  obtain ⟨h₁, h₂⟩ := dispatchValue_shape (mergeProps c.props name kwargs).1
    c.timestamps c.dump_period (cleanOrDummy (mergeProps c.props name kwargs).1 s)
  exact ⟨(extractRaw c name kwargs s).1.toEntry, h₁, h₂, rfl, rfl⟩

theorem findVirtual_cons_none (pat : String) (ctor : VirtualCtor)
    (rest : List (String × VirtualCtor)) (name : String)
    (hm : matchSegs (parseSegs pat) name.data = none) :
    findVirtual ((pat, ctor) :: rest) name = findVirtual rest name := by
  simp [findVirtual, hm]

theorem findVirtual_cons_some (pat : String) (ctor : VirtualCtor)
    (rest : List (String × VirtualCtor)) (name : String) (bs : Bindings)
    (hm : matchSegs (parseSegs pat) name.data = some bs) :
    findVirtual ((pat, ctor) :: rest) name = some (ctor, bs) := by
  simp [findVirtual, hm]

theorem findVirtual_first (name : String) :
    ∀ (v₁ : List (String × VirtualCtor)) (pat : String) (ctor : VirtualCtor)
      (v₂ : List (String × VirtualCtor)) (bs : Bindings),
      (∀ p ∈ v₁, matchSegs (parseSegs p.1) name.data = none) →
      matchSegs (parseSegs pat) name.data = some bs →
      findVirtual (v₁ ++ (pat, ctor) :: v₂) name = some (ctor, bs) := by
  intro v₁
  induction v₁ with
  | nil =>
    intro pat ctor v₂ bs _ hm
    exact findVirtual_cons_some pat ctor v₂ name bs hm
  | cons p rest ih =>
    intro pat ctor v₂ bs hall hm
    rw [List.cons_append, findVirtual_cons_none p.1 p.2 _ name
      (hall p (List.mem_cons_self p rest))]
    exact ih pat ctor v₂ bs (fun q hq => hall q (List.mem_cons_of_mem p hq)) hm

/-- C4: extract-once.  If `get(name, extract=True)` resolved a value, then
(i) the cache now stores a resolved (non-raw) entry for `name` denoting that
value, (ii) a second `get(name, extract=True)` returns exactly the stored
value with the cache unchanged — in the model the extraction function is
only invoked on the raw branch, so an unchanged cache means the decode path
is not re-run — and (iii) no get ever reverts a resolved entry to raw. -/
theorem claim4_extract_once (c : SensorCache) (name : String) (v : Value)
    (c' : SensorCache)
    (h : SensorCache.get c name false true [] = .ok (v, c')) :
    (∃ e, alookup c'.entries name = some e ∧ e.isRaw = false ∧ e.toValue = v) ∧
    SensorCache.get c' name false true [] = .ok (v, c') ∧
    (∀ m, resolvedAt c m → resolvedAt c' m) := by
  cases hlk : alookup c.entries name with
  | some e =>
    cases hre : e.isRaw with
    | false =>
      rw [get_of_resolved c name e [] hlk hre false] at h
      simp only [if_neg (by simp : ¬ (false = true))] at h
      obtain ⟨hv, hc⟩ : e.toValue = v ∧ c = c' := by
        have := h
        injection this with h₁
        injection h₁ with h₂ h₃
        exact ⟨h₂, h₃⟩
      subst hc
      refine ⟨⟨e, hlk, hre, hv⟩, ?_, fun m hm => hm⟩
      rw [get_of_resolved c name e [] hlk hre false, hv]
      simp
    | true =>
      cases e with
      | arr a => simp [Entry.isRaw] at hre
      | categ r => simp [Entry.isRaw] at hre
      | raw s =>
        rw [get_extract_raw c name [] s hlk false] at h
        simp only [Bool.false_eq_true, if_false] at h
        obtain ⟨hv, hc⟩ : (extractRaw c name [] s).1 = v ∧ (extractRaw c name [] s).2 = c' := by
          injection h with h₁
          injection h₁ with h₂ h₃
          exact ⟨h₂, h₃⟩
        obtain ⟨e', hraw', htv, hent, hkeep⟩ := extractRaw_spec c name [] s
        subst hc
        have hlk' : alookup (extractRaw c name [] s).2.entries name = some e' := by
          rw [hent, alookup_aupdate, if_pos rfl]
        refine ⟨⟨e', hlk', hraw', htv.trans hv⟩, ?_, ?_⟩
        · rw [get_of_resolved _ name e' [] hlk' hraw' false, htv.trans hv]
          simp
        · intro m hm
          obtain ⟨em, hem, hrm⟩ := hm
          by_cases hnm : name = m
          · exact ⟨e', by rw [hent, alookup_aupdate, if_pos hnm], hraw'⟩
          · exact ⟨em, by rw [hent, alookup_aupdate, if_neg hnm]; exact hem, hrm⟩
  | none =>
    cases hfv : findVirtual c.virtual name with
    | none =>
      rw [get_keyError c name [] hlk hfv false true (by simp)] at h
      exact absurd h (by simp)
    | some pc =>
      obtain ⟨ctor, bs⟩ := pc
      rw [get_virtual_extract c name [] ctor bs hlk hfv false] at h
      simp only [Bool.false_eq_true, if_false] at h
      obtain ⟨hv, hc⟩ : (extractRaw c name [] (ctor name bs)).1 = v ∧
          (extractRaw c name [] (ctor name bs)).2 = c' := by
        injection h with h₁
        injection h₁ with h₂ h₃
        exact ⟨h₂, h₃⟩
      obtain ⟨e', hraw', htv, hent, hkeep⟩ := extractRaw_spec c name [] (ctor name bs)
      subst hc
      have hlk' : alookup (extractRaw c name [] (ctor name bs)).2.entries name = some e' := by
        rw [hent, alookup_aupdate, if_pos rfl]
      refine ⟨⟨e', hlk', hraw', htv.trans hv⟩, ?_, ?_⟩
      · rw [get_of_resolved _ name e' [] hlk' hraw' false, htv.trans hv]
        simp
      · intro m hm
        obtain ⟨em, hem, hrm⟩ := hm
        by_cases hnm : name = m
        · exact ⟨e', by rw [hent, alookup_aupdate, if_pos hnm], hraw'⟩
        · exact ⟨em, by rw [hent, alookup_aupdate, if_neg hnm]; exact hem, hrm⟩

/-- C4 witness: a concrete categorical sensor is resolved once; the second
extracting get returns the stored value and leaves the cache untouched. -/
theorem claim4_extract_once_witness :
    SensorCache.get
        ⟨[("s", Entry.categ ⟨[1], [SValue.str "a"], [0, 1], 1,
            [("categorical", PropVal.pBool true)]⟩)], [0, 1], 1, [0],
          [("s", [("categorical", PropVal.pBool true)])], []⟩
        "s" false true [] =
      .ok (Value.categ ⟨[1], [SValue.str "a"], [0, 1], 1,
          [("categorical", PropVal.pBool true)]⟩,
        ⟨[("s", Entry.categ ⟨[1], [SValue.str "a"], [0, 1], 1,
            [("categorical", PropVal.pBool true)]⟩)], [0, 1], 1, [0],
          [("s", [("categorical", PropVal.pBool true)])], []⟩) :=
  (claim4_extract_once
    ⟨[("s", Entry.raw ⟨DType.str, [1], [SValue.str "a"], none⟩)], [0, 1], 1, [0], [], []⟩
    "s"
    (Value.categ ⟨[1], [SValue.str "a"], [0, 1], 1,
      [("categorical", PropVal.pBool true)]⟩)
    ⟨[("s", Entry.categ ⟨[1], [SValue.str "a"], [0, 1], 1,
        [("categorical", PropVal.pBool true)]⟩)], [0, 1], 1, [0],
      [("s", [("categorical", PropVal.pBool true)])], []⟩
    (by rfl)).2.1

/-- C6: virtual sensor resolution.  For a name absent from the concrete map:
(i) if the virtual table is `v₁ ++ (pat, ctor) :: v₂` where no pattern of
`v₁` matches the name and the placeholder-expanded pattern `pat` matches it
with captured bindings `bs`, then get invokes exactly that constructor with
those bindings (observed through the non-extracting path, which returns the
constructed raw series unchanged); (ii) if no template matches, get raises a
KeyError whose message contains the requested name. -/
theorem claim6_virtual (c : SensorCache) (name : String)
    (hnone : alookup c.entries name = none) :
    (∀ (v₁ : List (String × VirtualCtor)) (pat : String) (ctor : VirtualCtor)
      (v₂ : List (String × VirtualCtor)) (bs : Bindings),
      c.virtual = v₁ ++ (pat, ctor) :: v₂ →
      (∀ p ∈ v₁, matchSegs (parseSegs p.1) name.data = none) →
      matchSegs (parseSegs pat) name.data = some bs →
      SensorCache.get c name false false [] = .ok (.raw (ctor name bs), c)) ∧
    (findVirtual c.virtual name = none →
      ∃ msg, SensorCache.get c name false true [] = .error (.keyError msg) ∧
        ∃ p q, msg.data = p ++ name.data ++ q) := by
  constructor
  · intro v₁ pat ctor v₂ bs hv hall hm
    have hfv : findVirtual c.virtual name = some (ctor, bs) := by
      rw [hv]
      exact findVirtual_first name v₁ pat ctor v₂ bs hall hm
    exact get_virtual_noextract c name [] ctor bs hnone hfv
  · intro hfv
    refine ⟨"Unknown sensor '" ++ name ++
      "' (does not match actual name or virtual template)",
      get_keyError c name [] hnone hfv false true (by simp), ?_⟩
    refine ⟨("Unknown sensor '").data,
      ("' (does not match actual name or virtual template)").data, ?_⟩
    rw [String.data_append, String.data_append]

/-- C6 witness: a concrete template 'x{ant}y' matching the name 'xm1y' with
binding ant = 'm1'; the constructor's series is returned raw. -/
theorem claim6_virtual_witness :
    SensorCache.get
        ⟨[], [0], 1, [], [],
          [("x{ant}y", fun _ _ => ⟨DType.str, [0], [SValue.str "a"], none⟩)]⟩
        "xm1y" false false [] =
      .ok (.raw ⟨DType.str, [0], [SValue.str "a"], none⟩,
        ⟨[], [0], 1, [], [],
          [("x{ant}y", fun _ _ => ⟨DType.str, [0], [SValue.str "a"], none⟩)]⟩) :=
  (claim6_virtual
    ⟨[], [0], 1, [], [],
      [("x{ant}y", fun _ _ => ⟨DType.str, [0], [SValue.str "a"], none⟩)]⟩
    "xm1y" (by rfl)).1
    [] "x{ant}y" (fun _ _ => ⟨DType.str, [0], [SValue.str "a"], none⟩) []
    [("ant", "m1")] rfl (by intro p hp; exact absurd hp (List.not_mem_nil p)) (by decide)

/- ------------------------------------------------------------------ -/
/- Dummy-substitution lemmas                                           -/
/- ------------------------------------------------------------------ -/

theorem clean_dummy (dt : DType) :
    remove_duplicates_and_invalid_values (dummy_sensor_data none dt) =
      some (dummy_sensor_data none dt) := rfl

theorem clean_dtype {α : Type} [Inhabited α] (s : SensorData α)
    (out : SensorData α)
    (h : remove_duplicates_and_invalid_values s = some out) :
    out.dtype = s.dtype := by
  simp only [remove_duplicates_and_invalid_values] at h
  by_cases hne : s.timestamp.length = 0
  · rw [if_pos hne] at h
    exact absurd h (by simp)
  · rw [if_neg hne] at h
    injection h with h₁
    rw [← h₁]

theorem dummy_nonEmpty (dt : DType) :
    (dummy_sensor_data none dt).nonEmpty = true := rfl

theorem cleanOrDummy_of_empty (props : PropDict) (s : SensorData SValue)
    (hempty : s.nonEmpty = false ∨
      (∃ out, remove_duplicates_and_invalid_values s = some out ∧
        out.nonEmpty = false))
    (hnoinit : alookup props "initial_value" = none) :
    cleanOrDummy props s = dummy_sensor_data none s.dtype := by
  simp only [cleanOrDummy]
  by_cases hne : s.nonEmpty = true
  · obtain ⟨out, hout, hce⟩ : ∃ out, remove_duplicates_and_invalid_values s = some out ∧
        out.nonEmpty = false := by
      rcases hempty with h | h
      · rw [hne] at h
        exact absurd h (by simp)
      · exact h
    rw [hne]
    rw [if_pos rfl]
    rw [hout, Option.getD_some]
    rw [if_neg (show ¬ (out.nonEmpty = true) by rw [hce]; simp)]
    rw [hnoinit]
    rw [clean_dtype s out hout]
    rfl
  · have hne' : s.nonEmpty = false := by
      simpa using hne
    rw [hne']
    rw [if_neg (show ¬ (false = true) by simp)]
    rw [hne']
    rw [if_neg (show ¬ (false = true) by simp)]
    rw [hnoinit]
    rfl

theorem cleanOrDummy_dummy (props : PropDict) (dt : DType) :
    cleanOrDummy props (dummy_sensor_data none dt) = dummy_sensor_data none dt := by
  simp only [cleanOrDummy]
  rw [dummy_nonEmpty, clean_dummy, Option.getD_some]
  rw [if_pos rfl]
  rw [dummy_nonEmpty]
  rw [if_pos rfl]

theorem resolveSeries_dummy (props : PropDict) (timeline : List ℚ) (dump : ℚ)
    (s : SensorData SValue)
    (hempty : s.nonEmpty = false ∨
      (∃ out, remove_duplicates_and_invalid_values s = some out ∧
        out.nonEmpty = false))
    (hnoinit : alookup props "initial_value" = none) :
    resolveSeries props timeline dump s =
      resolveSeries props timeline dump (dummy_sensor_data none s.dtype) := by
  rw [resolveSeries, resolveSeries, cleanOrDummy_of_empty props s hempty hnoinit,
    cleanOrDummy_dummy]

/-- Store an entry under a name (`self[name] = data`). -/
def withEntry (c : SensorCache) (name : String) (e : Entry) : SensorCache :=
  { c with entries := aupdate c.entries name e }

/-- C7: when the raw series is empty, or cleaning leaves zero rows, and the
merged properties set no `initial_value`, extraction substitutes a
single-point dummy series timestamped 0 whose value is determined by the
dtype — NaN / -1 / empty string / false / None for float / int / string /
bool / object — and the resolved result equals what extraction produces for
that dummy series stored in place of the raw one. -/
theorem claim7_dummy (c : SensorCache) (name : String) (kwargs : PropDict)
    (s : SensorData SValue)
    (he : alookup c.entries name = some (.raw s))
    (hempty : s.nonEmpty = false ∨
      (∃ out, remove_duplicates_and_invalid_values s = some out ∧
        out.nonEmpty = false))
    (hnoinit : alookup (mergeProps c.props name kwargs).1 "initial_value" = none) :
    dummy_sensor_data none DType.float = ⟨DType.float, [0], [SValue.nan], none⟩ ∧
    dummy_sensor_data none DType.int = ⟨DType.int, [0], [SValue.int (-1)], none⟩ ∧
    dummy_sensor_data none DType.str = ⟨DType.str, [0], [SValue.str ""], none⟩ ∧
    dummy_sensor_data none DType.bool = ⟨DType.bool, [0], [SValue.bool false], none⟩ ∧
    dummy_sensor_data none DType.obj = ⟨DType.obj, [0], [SValue.null], none⟩ ∧
    (SensorCache.get c name false true kwargs).toOption.map Prod.fst =
      (SensorCache.get (withEntry c name (.raw (dummy_sensor_data none s.dtype)))
        name false true kwargs).toOption.map Prod.fst := by
  refine ⟨rfl, rfl, rfl, rfl, rfl, ?_⟩
  have hlk₂ : alookup (withEntry c name
      (.raw (dummy_sensor_data none s.dtype))).entries name =
      some (.raw (dummy_sensor_data none s.dtype)) := by
    rw [withEntry]
    show alookup (aupdate c.entries name _) name = _
    rw [alookup_aupdate, if_pos rfl]
  rw [get_extract_raw c name kwargs s he false]
  rw [get_extract_raw _ name kwargs _ hlk₂ false]
  simp only [Bool.false_eq_true, if_false, Except.toOption, Option.map]
  show some (resolveSeries (mergeProps c.props name kwargs).1 c.timestamps
      c.dump_period s).1 =
    some (resolveSeries (mergeProps c.props name kwargs).1 c.timestamps
      c.dump_period (dummy_sensor_data none s.dtype)).1
  rw [resolveSeries_dummy (mergeProps c.props name kwargs).1 c.timestamps
    c.dump_period s hempty hnoinit]

/-- C7 witness: an empty int sensor resolves exactly as its dummy
replacement (single point, timestamp 0, value -1) does. -/
theorem claim7_dummy_witness :
    (SensorCache.get ⟨[("e", Entry.raw ⟨DType.int, [], [], none⟩)],
        [0], 1, [], [], []⟩ "e" false true []).toOption.map Prod.fst =
      (SensorCache.get ⟨[("e", Entry.raw ⟨DType.int, [0], [SValue.int (-1)], none⟩)],
        [0], 1, [], [], []⟩ "e" false true []).toOption.map Prod.fst :=
  (claim7_dummy ⟨[("e", Entry.raw ⟨DType.int, [], [], none⟩)], [0], 1, [], [], []⟩
    "e" [] ⟨DType.int, [], [], none⟩ rfl (Or.inl rfl) rfl).2.2.2.2.2

/- ------------------------------------------------------------------ -/
/- Fallback-lookup lemmas                                              -/
/- ------------------------------------------------------------------ -/

theorem fallbackGo_skip (c : SensorCache) (t : String) (full : List String) :
    ∀ (ns₁ rest : List String),
      (∀ m ∈ ns₁, ∃ msg, SensorCache.get c m true true [] = .error (.keyError msg)) →
      fallbackGo c t full (ns₁ ++ rest) = fallbackGo c t full rest := by
  intro ns₁
  induction ns₁ with
  | nil => intro rest _; rfl
  | cons n ns ih =>
    intro rest hall
    obtain ⟨msg, hmsg⟩ := hall n (List.mem_cons_self n ns)
    rw [List.cons_append]
    show fallbackGo c t full (n :: (ns ++ rest)) = _
    simp only [fallbackGo, hmsg]
    exact ih rest (fun m hm => hall m (List.mem_cons_of_mem n hm))

theorem fallbackGo_all_fail (c : SensorCache) (t : String) (full : List String) :
    ∀ names : List String,
      (∀ m ∈ names, ∃ msg, SensorCache.get c m true true [] = .error (.keyError msg)) →
      fallbackGo c t full names = .error (.keyError
        ("Could not find any " ++ t ++ " sensor, tried " ++ pyListRepr full)) := by
  intro names
  induction names with
  | nil => intro _; rfl
  | cons n ns ih =>
    intro hall
    obtain ⟨msg, hmsg⟩ := hall n (List.mem_cons_self n ns)
    simp only [fallbackGo, hmsg]
    exact ih (fun m hm => hall m (List.mem_cons_of_mem n hm))

theorem commaSep_contains (m : String) :
    ∀ ns : List String, m ∈ ns →
      ∃ p q, (commaSep ns).data = p ++ m.data ++ q := by
  intro ns
  induction ns with
  | nil => intro h; exact absurd h (List.not_mem_nil m)
  | cons n rest ih =>
    intro hm
    cases rest with
    | nil =>
      have hmn : m = n := by
        rcases List.mem_cons.1 hm with h | h
        · exact h
        · exact absurd h (List.not_mem_nil m)
      subst hmn
      refine ⟨("'").data, ("'").data, ?_⟩
      show (("'" ++ m) ++ "'").data = _
      simp [String.data_append, List.append_assoc]
    | cons n₂ rest₂ =>
      rcases List.mem_cons.1 hm with he | hm₂
      · subst he
        refine ⟨("'").data, ("'" ++ ", " ++ commaSep (n₂ :: rest₂)).data, ?_⟩
        show ((("'" ++ m) ++ "'") ++ ", " ++ commaSep (n₂ :: rest₂)).data = _
        simp [String.data_append, List.append_assoc]
      · obtain ⟨p, q, hp⟩ := ih hm₂
        refine ⟨(quoteName n ++ ", ").data ++ p, q, ?_⟩
        show ((quoteName n ++ ", ") ++ commaSep (n₂ :: rest₂)).data = _
        rw [String.data_append, hp]
        simp [List.append_assoc]

theorem pyListRepr_contains (m : String) (ns : List String) (hm : m ∈ ns) :
    ∃ p q, (pyListRepr ns).data = p ++ m.data ++ q := by
  obtain ⟨p, q, hp⟩ := commaSep_contains m ns hm
  refine ⟨("[").data ++ p, q ++ ("]").data, ?_⟩
  show (("[" ++ commaSep ns) ++ "]").data = _
  rw [String.data_append, String.data_append, hp]
  simp [List.append_assoc]

/-- C9: `get_with_fallback(label, names)` tries each candidate in order via
the selecting get path and returns the first candidate's selected value;
names before the first success must have failed with KeyError.  If every
candidate fails with KeyError it raises a KeyError whose message names the
class label and every candidate. -/
theorem claim9_fallback (c : SensorCache) (t : String) :
    (∀ (ns₁ : List String) (n : String) (ns₂ : List String) (r : Value × SensorCache),
      (∀ m ∈ ns₁, ∃ msg, SensorCache.get c m true true [] = .error (.keyError msg)) →
      SensorCache.get c n true true [] = .ok r →
      SensorCache.get_with_fallback c t (ns₁ ++ n :: ns₂) = .ok r) ∧
    (∀ names : List String,
      (∀ m ∈ names, ∃ msg, SensorCache.get c m true true [] = .error (.keyError msg)) →
      ∃ msg, SensorCache.get_with_fallback c t names = .error (.keyError msg) ∧
        (∃ p q, msg.data = p ++ t.data ++ q) ∧
        ∀ m ∈ names, ∃ p q, msg.data = p ++ m.data ++ q) := by
  constructor
  · intro ns₁ n ns₂ r hfail hok
    rw [SensorCache.get_with_fallback,
      fallbackGo_skip c t (ns₁ ++ n :: ns₂) ns₁ (n :: ns₂) hfail]
    simp only [fallbackGo, hok]
  · intro names hfail
    refine ⟨"Could not find any " ++ t ++ " sensor, tried " ++ pyListRepr names,
      ?_, ?_, ?_⟩
    · rw [SensorCache.get_with_fallback]
      exact fallbackGo_all_fail c t names names hfail
    · refine ⟨("Could not find any ").data,
        (" sensor, tried " ++ pyListRepr names).data, ?_⟩
      show ((("Could not find any " ++ t) ++ " sensor, tried ") ++ pyListRepr names).data = _
      simp [String.data_append, List.append_assoc]
    · intro m hm
      obtain ⟨p, q, hp⟩ := pyListRepr_contains m names hm
      refine ⟨((("Could not find any " ++ t) ++ " sensor, tried ")).data ++ p, q, ?_⟩
      show ((("Could not find any " ++ t) ++ " sensor, tried ") ++ pyListRepr names).data = _
      rw [String.data_append, hp]
      simp [List.append_assoc]

/-- C9 witness: candidates ['foo', 'bar'] where only 'bar' exists: the
fallback lookup returns bar's selected value. -/
theorem claim9_fallback_witness :
    SensorCache.get_with_fallback
        ⟨[("bar", Entry.raw ⟨DType.str, [1], [SValue.str "a"], none⟩)],
          [0, 1], 1, [0], [], []⟩ "x" ["foo", "bar"] =
      .ok (Value.categSel ⟨[1], [SValue.str "a"], [0, 1], 1,
          [("categorical", PropVal.pBool true)]⟩ [0],
        ⟨[("bar", Entry.categ ⟨[1], [SValue.str "a"], [0, 1], 1,
            [("categorical", PropVal.pBool true)]⟩)], [0, 1], 1, [0],
          [("bar", [("categorical", PropVal.pBool true)])], []⟩) :=
  (claim9_fallback
    ⟨[("bar", Entry.raw ⟨DType.str, [1], [SValue.str "a"], none⟩)],
      [0, 1], 1, [0], [], []⟩ "x").1
    ["foo"] "bar" []
    (Value.categSel ⟨[1], [SValue.str "a"], [0, 1], 1,
        [("categorical", PropVal.pBool true)]⟩ [0],
      ⟨[("bar", Entry.categ ⟨[1], [SValue.str "a"], [0, 1], 1,
          [("categorical", PropVal.pBool true)]⟩)], [0, 1], 1, [0],
        [("bar", [("categorical", PropVal.pBool true)])], []⟩)
    (by
      intro m hm
      have hmf : m = "foo" := by
        rcases List.mem_cons.1 hm with h | h
        · exact h
        · exact absurd h (List.not_mem_nil m)
      subst hmf
      exact ⟨_, rfl⟩)
    (by rfl)

/- ------------------------------------------------------------------ -/
/- Property-persistence lemmas                                         -/
/- ------------------------------------------------------------------ -/

theorem aupdate_getD_preserves (d : PropDict) (k : String) (dflt : PropVal) :
    ∀ (k' : String) (v : PropVal), alookup d k' = some v →
      alookup (aupdate d k ((alookup d k).getD dflt)) k' = some v := by
  intro k' v hv
  rw [alookup_aupdate]
  by_cases h : k = k'
  · subst h
    rw [if_pos rfl, hv]
    rfl
  · rw [if_neg h]
    exact hv

theorem dispatchValue_props_persist (props : PropDict) (timeline : List ℚ)
    (dump : ℚ) (sd : SensorData SValue) :
    ∀ (k : String) (v : PropVal), alookup props k = some v →
      alookup (dispatchValue props timeline dump sd).2 k = some v := by
  intro k v hv
  rw [dispatchValue]
  split
  · exact aupdate_getD_preserves props "categorical" _ k v hv
  · exact aupdate_getD_preserves _ "interp_degree" _ k v
      (aupdate_getD_preserves props "categorical" _ k v hv)

/-- C10: the first extracting get writes the fully merged property dict
(class-pattern values and keyword overrides included, possibly extended by
the defaulted `categorical` / `interp_degree` keys) into the shared property
table under the exact sensor name: every binding of the merged dict, and in
particular every keyword override (last binding per key, i.e. dict
semantics), is visible in the stored per-name dict of the returned cache,
so overrides are not scoped to the call. -/
theorem claim10_props_persist (c : SensorCache) (name : String) (kwargs : PropDict)
    (s : SensorData SValue) (v : Value) (c' : SensorCache)
    (he : alookup c.entries name = some (.raw s))
    (h : SensorCache.get c name false true kwargs = .ok (v, c')) :
    ∃ d, alookup c'.props name = some d ∧
      (∀ (k : String) (val : PropVal), alookup kwargs.reverse k = some val →
        alookup d k = some val) ∧
      (∀ (k : String) (val : PropVal),
        alookup (mergeProps c.props name kwargs).1 k = some val →
        alookup d k = some val) := by
  rw [get_extract_raw c name kwargs s he false] at h
  simp only [Bool.false_eq_true, if_false] at h
  have hc : (extractRaw c name kwargs s).2 = c' := by
    injection h with h₁
    injection h₁ with h₂ h₃
  subst hc
  refine ⟨(resolveSeries (mergeProps c.props name kwargs).1 c.timestamps
      c.dump_period s).2, ?_, ?_, ?_⟩
  · show alookup (aupdate (mergeProps c.props name kwargs).2 name _) name = _
    rw [alookup_aupdate, if_pos rfl]
  · intro k val hk
    have hm : alookup (mergeProps c.props name kwargs).1 k = some val := by
      show alookup (dictUpdate _ kwargs) k = some val
      rw [alookup_dictUpdate, hk]
      rfl
    exact dispatchValue_props_persist _ _ _ _ k val hm
  · intro k val hm
    exact dispatchValue_props_persist _ _ _ _ k val hm

/-- C10 witness: a keyword override supplied to a first extracting get is
visible in the stored per-name property dict afterwards. -/
theorem claim10_props_persist_witness :
    ∃ d, alookup (⟨[("s", Entry.categ ⟨[1], [SValue.str "a"], [0, 1], 1,
          [("foo", PropVal.pStr "x"), ("categorical", PropVal.pBool true)]⟩)],
        [0, 1], 1, [0],
        [("s", [("foo", PropVal.pStr "x"), ("categorical", PropVal.pBool true)])],
        []⟩ : SensorCache).props "s" = some d ∧
      (∀ (k : String) (val : PropVal),
        alookup ([("foo", PropVal.pStr "x")] : PropDict).reverse k = some val →
        alookup d k = some val) ∧
      (∀ (k : String) (val : PropVal),
        alookup (mergeProps ([] : List (String × PropDict)) "s"
          [("foo", PropVal.pStr "x")]).1 k = some val →
        alookup d k = some val) :=
  claim10_props_persist
    ⟨[("s", Entry.raw ⟨DType.str, [1], [SValue.str "a"], none⟩)], [0, 1], 1, [0], [], []⟩
    "s" [("foo", PropVal.pStr "x")] ⟨DType.str, [1], [SValue.str "a"], none⟩
    (Value.categ ⟨[1], [SValue.str "a"], [0, 1], 1,
      [("foo", PropVal.pStr "x"), ("categorical", PropVal.pBool true)]⟩)
    ⟨[("s", Entry.categ ⟨[1], [SValue.str "a"], [0, 1], 1,
        [("foo", PropVal.pStr "x"), ("categorical", PropVal.pBool true)]⟩)],
      [0, 1], 1, [0],
      [("s", [("foo", PropVal.pStr "x"), ("categorical", PropVal.pBool true)])],
      []⟩
    rfl (by rfl)
